import Mathlib

/-!
Verification of the path-tracing renderer (src/render/PathTracer.h,
src/render/controls.cpp, src/src/main.cpp).

The C++ code computes with `double` and a handful of math-library calls
(`sqrt`, `cos`, `sin`, `pow`).  We shallowly embed the arithmetic over the
exact rationals `ℚ`; the transcendental calls, which have no exact rational
counterpart, are abstracted as an explicit record of functions (`RealOps`)
threaded through the definitions exactly where the source calls them.  The
tone-mapping pipeline, whose claim is analytic (monotonicity of a filmic
curve composed with a real power), is additionally instantiated over `ℝ`
with `Real.rpow`.  Machine integers (`uint32_t` seeds, `int` counters) are
embedded as `ℕ`/`ℤ` with explicit reduction `% 2 ^ 32` where the C++ type
wraps.
-/

attribute [local semireducible] Rat.add Rat.mul Rat.sub Rat.inv Rat.ofScientific

namespace PT

/-- Vector of three rationals, embedding `struct Vec3 { double x, y, z; }`. -/
structure Vec3 where
  x : ℚ
  y : ℚ
  z : ℚ
deriving DecidableEq, Repr

instance : Inhabited Vec3 := ⟨⟨0, 0, 0⟩⟩

/-- Componentwise sum, embedding `Vec3::operator+`. -/
instance : Add Vec3 := ⟨fun a b => ⟨a.x + b.x, a.y + b.y, a.z + b.z⟩⟩

/-- Componentwise difference, embedding `Vec3::operator-`. -/
instance : Sub Vec3 := ⟨fun a b => ⟨a.x - b.x, a.y - b.y, a.z - b.z⟩⟩

/-- Componentwise (Hadamard) product, embedding `Vec3::operator*(const Vec3&)`. -/
instance : Mul Vec3 := ⟨fun a b => ⟨a.x * b.x, a.y * b.y, a.z * b.z⟩⟩

/-- Scaling by a scalar on the right, embedding `Vec3::operator*(double)`. -/
instance : HMul Vec3 ℚ Vec3 := ⟨fun a b => ⟨a.x * b, a.y * b, a.z * b⟩⟩

theorem Vec3.add_def (a b : Vec3) : a + b = ⟨a.x + b.x, a.y + b.y, a.z + b.z⟩ := rfl

theorem Vec3.sub_def (a b : Vec3) : a - b = ⟨a.x - b.x, a.y - b.y, a.z - b.z⟩ := rfl

theorem Vec3.mul_def (a b : Vec3) : a * b = ⟨a.x * b.x, a.y * b.y, a.z * b.z⟩ := rfl

theorem Vec3.smul_def (a : Vec3) (b : ℚ) : a * b = (⟨a.x * b, a.y * b, a.z * b⟩ : Vec3) := rfl

/-- Dot product, embedding `Vec3::dot`. -/
def Vec3.dot (a b : Vec3) : ℚ := a.x * b.x + a.y * b.y + a.z * b.z

/-- Cross product, embedding `Vec3::cross`. -/
def Vec3.cross (a b : Vec3) : Vec3 :=
  ⟨a.y * b.z - a.z * b.y, a.z * b.x - a.x * b.z, a.x * b.y - a.y * b.x⟩

/-- Component access `v[i]`, embedding `Vec3::operator[]`.  The C++ code only
ever calls it with `i` in 0..2. -/
def Vec3.nth (a : Vec3) (i : ℕ) : ℚ :=
  if i = 0 then a.x else if i = 1 then a.y else a.z

/-- Abstract interface for the `double` math-library calls the renderer makes
(`std::sqrt`, `std::cos`, `std::sin`, and `std::pow` with fixed exponent
`1/2.2`).  The control-flow and accounting claims hold for every choice of
these functions; witnesses instantiate them with computable rational
approximations. -/
structure RealOps where
  sqrt : ℚ → ℚ
  cos : ℚ → ℚ
  sin : ℚ → ℚ
  gamma : ℚ → ℚ

/-- Normalisation `v.norm()`, embedding `Vec3::norm`: multiply by the
reciprocal square root of the squared length, with the square root supplied
by `ops`. -/
def Vec3.normV (ops : RealOps) (v : Vec3) : Vec3 :=
  v * (1 / ops.sqrt (v.x * v.x + v.y * v.y + v.z * v.z))

/-- A ray, embedding `struct Ray { Vec3 o, d, inv_d; }`. -/
structure Ray where
  o : Vec3
  d : Vec3
  inv_d : Vec3
deriving DecidableEq, Repr

/-- The `Ray(Vec3, Vec3)` constructor: precompute the reciprocal direction,
replacing any component whose magnitude is at most `1e-8` by `1e-8` before
taking the reciprocal. -/
def mkRay (o d : Vec3) : Ray :=
  { o := o
    d := d
    inv_d := ⟨1 / (if |d.x| > 1e-8 then d.x else 1e-8),
              1 / (if |d.y| > 1e-8 then d.y else 1e-8),
              1 / (if |d.z| > 1e-8 then d.z else 1e-8)⟩ }

/-- Axis-aligned bounding box, embedding `struct AABB`. -/
structure AABB where
  min : Vec3
  max : Vec3
deriving DecidableEq, Repr

/-- The `AABB()` default constructor: inverted infinities (`1e20`). -/
def aabbEmpty : AABB :=
  ⟨⟨1e20, 1e20, 1e20⟩, ⟨-1e20, -1e20, -1e20⟩⟩

/-- Embedding of `AABB::expand`: grow the box to contain the point `p`. -/
def AABB.expand (b : AABB) (p : Vec3) : AABB :=
  ⟨⟨Min.min b.min.x p.x, Min.min b.min.y p.y, Min.min b.min.z p.z⟩,
   ⟨Max.max b.max.x p.x, Max.max b.max.y p.y, Max.max b.max.z p.z⟩⟩

/-- Embedding of `AABB::intersect` (the slab method): returns whether the
per-axis entry/exit intervals overlap within distance `t_max`. -/
def AABB.intersect (b : AABB) (r : Ray) (t_max : ℚ) : Bool :=
  let t1x := (b.min.x - r.o.x) * r.inv_d.x
  let t2x := (b.max.x - r.o.x) * r.inv_d.x
  let tmin0 := Min.min t1x t2x
  let tmax0 := Max.max t1x t2x
  let t1y := (b.min.y - r.o.y) * r.inv_d.y
  let t2y := (b.max.y - r.o.y) * r.inv_d.y
  let tmin1 := Max.max tmin0 (Min.min t1y t2y)
  let tmax1 := Min.min tmax0 (Max.max t1y t2y)
  let t1z := (b.min.z - r.o.z) * r.inv_d.z
  let t2z := (b.max.z - r.o.z) * r.inv_d.z
  let tmin2 := Max.max tmin1 (Min.min t1z t2z)
  let tmax2 := Min.min tmax1 (Max.max t1z t2z)
  decide (tmax2 ≥ tmin2) && decide (tmin2 < t_max) && decide (tmax2 > 0)

/-- Embedding of `intersectTriangle` (Möller–Trumbore).  Returns the triple
`(t, outU, outV)`.  The C++ function communicates `outU`/`outV` through
reference parameters that are left untouched on the rejection paths that
occur before they are assigned (callers only read them after a hit, i.e.
when the returned `t` is positive); on those paths we return `0` in the
corresponding slot. -/
def intersectTriangle (r : Ray) (v0 v1 v2 : Vec3) : ℚ × ℚ × ℚ :=
  let EPS : ℚ := 1e-6
  let e1 := v1 - v0
  let e2 := v2 - v0
  let h := r.d.cross e2
  let a := e1.dot h
  if a > -EPS ∧ a < EPS then (0, 0, 0) else
  let f := 1 / a
  let s := r.o - v0
  let outU := f * s.dot h
  if outU < 0 ∨ outU > 1 then (0, outU, 0) else
  let q := s.cross e1
  let outV := f * r.d.dot q
  if outV < 0 ∨ outU + outV > 1 then (0, outU, outV) else
  let t := f * e2.dot q
  (if t > EPS then t else 0, outU, outV)

/-- The rejection ladder exactly as §4.3 of the specification words it:
determinant within epsilon of zero, then `u` outside `[0,1]`, then `v`
negative or `u+v` beyond 1, then accept `t` only strictly beyond epsilon.
This definition is transcribed from the specification text so that claim C3
can compare it against the code's `intersectTriangle`. -/
def specLadder (r : Ray) (v0 v1 v2 : Vec3) : ℚ × ℚ × ℚ :=
  let e1 := v1 - v0
  let e2 := v2 - v0
  let h := r.d.cross e2
  let a := e1.dot h
  if |a| < 1e-6 then (0, 0, 0) else
  let u := (1 / a) * (r.o - v0).dot h
  if u < 0 ∨ u > 1 then (0, u, 0) else
  let q := (r.o - v0).cross e1
  let v := (1 / a) * r.d.dot q
  if v < 0 ∨ u + v > 1 then (0, u, v) else
  let t := (1 / a) * e2.dot q
  if t > 1e-6 then (t, u, v) else (0, u, v)

/-- Claim C3: for every ray and triangle, `intersectTriangle` implements
exactly the specified rejection ladder, in the specified order: no-hit when
the determinant satisfies `|a| < 1e-6`; else no-hit when barycentric `u` is
outside `[0,1]`; else no-hit when `v` is negative or `u+v` exceeds 1; else
the distance `t` is returned only when `t > 1e-6`, and `0` otherwise. -/
theorem intersectTriangle_eq_specLadder (r : Ray) (v0 v1 v2 : Vec3) :
    intersectTriangle r v0 v1 v2 = specLadder r v0 v1 v2 := by
  unfold intersectTriangle specLadder
  have habs : ∀ q : ℚ, |q| < 1e-6 ↔ (q > -(1e-6) ∧ q < 1e-6) := by
    intro q
    constructor
    · intro h
      exact ⟨neg_lt_of_abs_lt h, lt_of_abs_lt h⟩
    · intro h
      exact abs_lt.mpr ⟨h.1, h.2⟩
  simp only [habs]
  split_ifs <;> rfl

/-- BVH tree node, embedding `struct BVHNode`.  The C++ child pointers
(`nullptr` when absent) become `Option`; `firstTriIndex` is stored as `ℕ`
(the C++ `-1` initial value only survives in interior nodes, where the
field is never read because `triCount = 0` there; we store `0` in its
place). -/
inductive BVHNode where
  | mk (box : AABB) (left : Option BVHNode) (right : Option BVHNode)
      (firstTriIndex : ℕ) (triCount : ℕ)
deriving Repr

def BVHNode.box : BVHNode → AABB
  | .mk b _ _ _ _ => b

def BVHNode.left : BVHNode → Option BVHNode
  | .mk _ l _ _ _ => l

def BVHNode.right : BVHNode → Option BVHNode
  | .mk _ _ r _ _ => r

def BVHNode.firstTriIndex : BVHNode → ℕ
  | .mk _ _ _ f _ => f

def BVHNode.triCount : BVHNode → ℕ
  | .mk _ _ _ _ c => c

/-- Texture storage, embedding `struct TextureData` (`int` dimensions,
linear float pixel buffer). -/
structure TextureData where
  width : ℤ
  height : ℤ
  pixels : List ℚ
deriving Repr

/-- Texture coordinates, embedding `struct PtVec2 { float u, v; }`. -/
structure PtVec2 where
  u : ℚ
  v : ℚ
deriving Repr

/-- The render scene, embedding `struct SceneData`.  The C++ `triIndices`
is a `vector<int>` but only ever holds values in `[0, faces.size())`, so we
store `ℕ`. -/
structure SceneData where
  vertices : List Vec3
  faces : List (List ℕ)
  triIndices : List ℕ
  textures : List TextureData
  faceTextureID : List ℤ
  faceUVs : List (List PtVec2)
  bvhRoot : Option BVHNode

/-- Vertex lookup `scene.vertices[i]` (out-of-range access is undefined in
C++ and never happens for the scenes the editor produces; we default to the
origin, and use the same default consistently everywhere). -/
def vtx (vs : List Vec3) (i : ℕ) : Vec3 := vs.getD i ⟨0, 0, 0⟩

/-- Face lookup `scene.faces[i]`, defaulting to the empty face. -/
def faceAt (fs : List (List ℕ)) (i : ℕ) : List ℕ := fs.getD i []

/-- Face-vertex index lookup `f[k]`, defaulting to vertex 0. -/
def fidx (f : List ℕ) (k : ℕ) : ℕ := f.getD k 0

/-- Embedding of `getCentroid`: mean of the three corners, with the
source's literal factor `0.333333`. -/
def getCentroid (vs : List Vec3) (fs : List (List ℕ)) (triIdx : ℕ) : Vec3 :=
  let f := faceAt fs triIdx
  (vtx vs (fidx f 0) + vtx vs (fidx f 1) + vtx vs (fidx f 2)) * (0.333333 : ℚ)

/-- One triangle's contribution to the node box of `buildBVHRecursive`:
expand by the triangle's three vertices. -/
def boxStep (vs : List Vec3) (fs : List (List ℕ)) (tri : List ℕ)
    (box : AABB) (i : ℕ) : AABB :=
  let f := faceAt fs (tri.getD i 0)
  ((box.expand (vtx vs (fidx f 0))).expand (vtx vs (fidx f 1))).expand
    (vtx vs (fidx f 2))

/-- Step 1 of `buildBVHRecursive`: the node box, grown over the three
vertices of every triangle in the index range `[left, right)`. -/
def computeBox (vs : List Vec3) (fs : List (List ℕ)) (tri : List ℕ)
    (left right : ℕ) : AABB :=
  (List.range' left (right - left)).foldl (boxStep vs fs tri) aabbEmpty

/-- In-place `std::swap(a[i], a[j])` on an index list. -/
def listSwap (l : List ℕ) (i j : ℕ) : List ℕ :=
  (l.set i (l.getD j 0)).set j (l.getD i 0)

/-- One iteration of the partition pass of `buildBVHRecursive`: if the
centroid of the triangle at position `i` lies before `split` on `axis`,
swap it down to position `mid` and advance `mid`. -/
def partStep (vs : List Vec3) (fs : List (List ℕ)) (axis : ℕ) (split : ℚ)
    (st : List ℕ × ℕ) (i : ℕ) : List ℕ × ℕ :=
  if (getCentroid vs fs (st.1.getD i 0)).nth axis < split
  then (listSwap st.1 i st.2, st.2 + 1)
  else st

/-- Step 3 of `buildBVHRecursive`: the quick-select partition pass.  Walks
`i` over `[left, right)` performing `partStep`.  Returns the permuted index
list and the final `mid`. -/
def partitionLoop (vs : List Vec3) (fs : List (List ℕ)) (axis : ℕ) (split : ℚ)
    (tri : List ℕ) (left right : ℕ) : List ℕ × ℕ :=
  (List.range' left (right - left)).foldl (partStep vs fs axis split) (tri, left)

/-- Embedding of `buildBVHRecursive`.  The C++ recursion terminates because
each child range is strictly shorter; we make that measure explicit through
a `fuel` argument (callers pass at least `right - left`, which suffices, so
the `fuel = 0` branch is never reached on those calls). -/
def buildBVHRec (vs : List Vec3) (fs : List (List ℕ)) :
    ℕ → List ℕ → ℕ → ℕ → BVHNode × List ℕ
  | 0, tri, left, right =>
    (.mk (computeBox vs fs tri left right) none none left (right - left), tri)
  | fuel + 1, tri, left, right =>
    let box := computeBox vs fs tri left right
    let count := right - left
    if count ≤ 2 then (.mk box none none left count, tri)
    else
      let size := box.max - box.min
      let axis := if size.x > size.y then (if size.x > size.z then 0 else 2)
        else (if size.y > size.z then 1 else 2)
      let split := box.min.nth axis + size.nth axis * (0.5 : ℚ)
      let pm := partitionLoop vs fs axis split tri left right
      let mid := if pm.2 = left ∨ pm.2 = right then left + count / 2 else pm.2
      let lres := buildBVHRec vs fs fuel pm.1 left mid
      let rres := buildBVHRec vs fs fuel lres.2 mid right
      (.mk box (some lres.1) (some rres.1) 0 0, rres.2)

/-- Embedding of `buildBVH`: empty scenes build no tree; otherwise
`triIndices` is (re)initialised to `0, 1, …, n-1` and the recursive builder
runs over the whole range. -/
def buildBVH (scene : SceneData) : SceneData :=
  if scene.faces.isEmpty then scene
  else
    let n := scene.faces.length
    let res := buildBVHRec scene.vertices scene.faces n (List.range n) 0 n
    { scene with triIndices := res.2, bvhRoot := some res.1 }

/-- Leaf ranges of a BVH subtree in depth-first order:
`(firstTriIndex, triCount)` for every leaf. -/
def leafRanges : BVHNode → List (ℕ × ℕ)
  | .mk _ (some L) (some R) _ _ => leafRanges L ++ leafRanges R
  | .mk _ _ _ f c => [(f, c)]

/-- The contiguous segment of positions `[l, r)` of an index list. -/
def seg (a : List ℕ) (l r : ℕ) : List ℕ := (a.drop l).take (r - l)

theorem listSwap_length (a : List ℕ) (i j : ℕ) :
    (listSwap a i j).length = a.length := by
  simp [listSwap]

theorem listSwap_getD_ne (a : List ℕ) (i j p : ℕ) (hpi : p ≠ i) (hpj : p ≠ j) :
    (listSwap a i j).getD p 0 = a.getD p 0 := by
  simp only [listSwap, List.getD_eq_getElem?_getD]
  rw [List.getElem?_set_ne (fun h => hpj h.symm), List.getElem?_set_ne (fun h => hpi h.symm)]

theorem set_getD_self (l : List ℕ) (n : ℕ) (h : n < l.length) :
    l.set n (l.getD n 0) = l := by
  apply List.ext_getElem
  · simp
  · intro i h1 h2
    rw [List.getElem_set]
    split
    · next heq =>
      subst heq
      rw [List.getD_eq_getElem l 0 h]
    · rfl

theorem cons_set_perm (x : ℕ) :
    ∀ (l : List ℕ) (j : ℕ), j < l.length → (l.getD j 0 :: l.set j x).Perm (x :: l)
  | [], j, hj => absurd hj (by simp)
  | b :: t, 0, _ => by
    simpa using List.Perm.swap x b t
  | b :: t, j + 1, hj => by
    have hjt : j < t.length := by simpa using hj
    have h1 : (t.getD j 0 :: b :: t.set j x).Perm (b :: t.getD j 0 :: t.set j x) :=
      List.Perm.swap b (t.getD j 0) _
    have h2 : (b :: t.getD j 0 :: t.set j x).Perm (b :: x :: t) :=
      (cons_set_perm x t j hjt).cons b
    have h3 : (b :: x :: t).Perm (x :: b :: t) := List.Perm.swap x b t
    exact (h1.trans h2).trans h3

theorem listSwap_comm (a : List ℕ) (i j : ℕ) (h : i ≠ j) :
    listSwap a i j = listSwap a j i := by
  simp only [listSwap]
  exact List.set_comm _ _ _ h

theorem listSwap_perm :
    ∀ (a : List ℕ) (i j : ℕ), i < a.length → j < a.length → (listSwap a i j).Perm a
  | [], _, _, hi, _ => absurd hi (by simp)
  | b :: t, 0, 0, _, _ => by
    simp [listSwap]
  | b :: t, 0, j + 1, _, hj => by
    have hjt : j < t.length := by simpa using hj
    show (((b :: t).set 0 ((b :: t).getD (j + 1) 0)).set (j + 1) ((b :: t).getD 0 0)).Perm (b :: t)
    simp only [List.getD_cons_succ, List.getD_cons_zero, List.set_cons_zero,
      List.set_cons_succ]
    exact cons_set_perm b t j hjt
  | b :: t, i + 1, 0, hi, _ => by
    rw [listSwap_comm _ _ _ (by omega)]
    have hit : i < t.length := by simpa using hi
    show (((b :: t).set 0 ((b :: t).getD (i + 1) 0)).set (i + 1) ((b :: t).getD 0 0)).Perm (b :: t)
    simp only [List.getD_cons_succ, List.getD_cons_zero, List.set_cons_zero,
      List.set_cons_succ]
    exact cons_set_perm b t i hit
  | b :: t, i + 1, j + 1, hi, hj => by
    have hit : i < t.length := by simpa using hi
    have hjt : j < t.length := by simpa using hj
    show (((b :: t).set (i + 1) ((b :: t).getD (j + 1) 0)).set (j + 1)
        ((b :: t).getD (i + 1) 0)).Perm (b :: t)
    simp only [List.getD_cons_succ, List.set_cons_succ]
    exact (listSwap_perm t i j hit hjt).cons b

/-- Invariants of the partition pass, proved for the fold over any index
window `[s, s+c)` starting from any `mid ≤ s`: the list keeps its length,
is only permuted, `mid` moves forward but stays inside the window, and
entries before `mid` or at `s+c` and beyond are untouched. -/
theorem partFold_spec (vs : List Vec3) (fs : List (List ℕ)) (axis : ℕ) (split : ℚ) :
    ∀ (c s mid : ℕ) (a : List ℕ), mid ≤ s → s + c ≤ a.length →
    ((List.range' s c).foldl (partStep vs fs axis split) (a, mid)).1.length = a.length ∧
    mid ≤ ((List.range' s c).foldl (partStep vs fs axis split) (a, mid)).2 ∧
    ((List.range' s c).foldl (partStep vs fs axis split) (a, mid)).2 ≤ s + c ∧
    ((List.range' s c).foldl (partStep vs fs axis split) (a, mid)).1.Perm a ∧
    ∀ p, (p < mid ∨ s + c ≤ p) →
      ((List.range' s c).foldl (partStep vs fs axis split) (a, mid)).1.getD p 0 =
        a.getD p 0 := by
  intro c
  induction c with
  | zero =>
    intro s mid a hms _
    exact ⟨rfl, le_refl _, (by omega : mid ≤ s + 0), List.Perm.refl a, fun p _ => rfl⟩
  | succ c ih =>
    intro s mid a hms hlen
    rw [List.range'_succ, List.foldl_cons]
    by_cases hc : (getCentroid vs fs (a.getD s 0)).nth axis < split
    · have hstep : partStep vs fs axis split (a, mid) s = (listSwap a s mid, mid + 1) := by
        simp only [partStep]
        rw [if_pos hc]
      rw [hstep]
      have hlen' : (listSwap a s mid).length = a.length := listSwap_length a s mid
      have hsa : s < a.length := by omega
      have hma : mid < a.length := by omega
      obtain ⟨l1, l2, l3, l4, l5⟩ :=
        ih (s + 1) (mid + 1) (listSwap a s mid) (by omega) (by omega)
      refine ⟨l1.trans hlen', by omega, by omega,
        l4.trans (listSwap_perm a s mid hsa hma), ?_⟩
      intro p hp
      have h5 := l5 p (by omega)
      rw [h5, listSwap_getD_ne a s mid p (by omega) (by omega)]
    · have hstep : partStep vs fs axis split (a, mid) s = (a, mid) := by
        simp only [partStep]
        rw [if_neg hc]
      rw [hstep]
      obtain ⟨l1, l2, l3, l4, l5⟩ := ih (s + 1) mid a (by omega) (by omega)
      exact ⟨l1, l2, by omega, l4, fun p hp => l5 p (by omega)⟩

theorem seg_whole (a : List ℕ) : seg a 0 a.length = a := by
  simp [seg]

theorem seg_length (a : List ℕ) (l r : ℕ) (hr : r ≤ a.length) :
    (seg a l r).length = r - l := by
  simp only [seg, List.length_take, List.length_drop]
  omega

theorem seg_split (a : List ℕ) (l m r : ℕ) (h1 : l ≤ m) (h2 : m ≤ r) :
    seg a l r = seg a l m ++ seg a m r := by
  simp only [seg]
  have he : r - l = (m - l) + (r - m) := by omega
  rw [he, List.take_add]
  congr 2
  rw [List.drop_drop]
  congr 1
  omega

theorem seg_getD_mem (a : List ℕ) (l r p : ℕ) (hlp : l ≤ p) (hpr : p < r)
    (hr : r ≤ a.length) : a.getD p 0 ∈ seg a l r := by
  have hlen : (seg a l r).length = r - l := seg_length a l r hr
  have hk : p - l < (seg a l r).length := by omega
  refine List.mem_iff_getElem.mpr ⟨p - l, hk, ?_⟩
  simp only [seg, List.getElem_take, List.getElem_drop]
  rw [List.getD_eq_getElem a 0 (by omega)]
  congr 1
  omega

theorem mem_seg (a : List ℕ) (l r idx : ℕ) (h : idx ∈ seg a l r)
    (hr : r ≤ a.length) : ∃ p, l ≤ p ∧ p < r ∧ a.getD p 0 = idx := by
  obtain ⟨k, hk, hkeq⟩ := List.mem_iff_getElem.mp h
  have hlen : (seg a l r).length = r - l := seg_length a l r hr
  refine ⟨l + k, by omega, by omega, ?_⟩
  simp only [seg, List.getElem_take, List.getElem_drop] at hkeq
  rw [List.getD_eq_getElem a 0 (by omega)]
  exact hkeq

theorem seg_ext (a b : List ℕ) (l r : ℕ) (hlen : a.length = b.length)
    (hr : r ≤ a.length)
    (h : ∀ p, l ≤ p → p < r → a.getD p 0 = b.getD p 0) :
    seg a l r = seg b l r := by
  apply List.ext_getElem
  · rw [seg_length a l r hr, seg_length b l r (by omega)]
  · intro k h1 h2
    rw [seg_length a l r hr] at h1
    simp only [seg, List.getElem_take, List.getElem_drop]
    have := h (l + k) (by omega) (by omega)
    rwa [List.getD_eq_getElem a 0 (by omega), List.getD_eq_getElem b 0 (by omega)] at this

theorem take_ext (a b : List ℕ) (l : ℕ) (hlen : a.length = b.length)
    (h : ∀ p, p < l → a.getD p 0 = b.getD p 0) : a.take l = b.take l := by
  apply List.ext_getElem
  · simp only [List.length_take]
    omega
  · intro k h1 h2
    simp only [List.length_take] at h1
    simp only [List.getElem_take]
    have := h k (by omega)
    rwa [List.getD_eq_getElem a 0 (by omega), List.getD_eq_getElem b 0 (by omega)] at this

theorem drop_ext (a b : List ℕ) (r : ℕ) (hlen : a.length = b.length)
    (h : ∀ p, r ≤ p → a.getD p 0 = b.getD p 0) : a.drop r = b.drop r := by
  apply List.ext_getElem
  · simp only [List.length_drop]
    omega
  · intro k h1 h2
    simp only [List.length_drop] at h1
    simp only [List.getElem_drop]
    have := h (r + k) (by omega)
    rwa [List.getD_eq_getElem a 0 (by omega), List.getD_eq_getElem b 0 (by omega)] at this

theorem seg_decomp (a : List ℕ) (l r : ℕ) (h1 : l ≤ r) (h2 : r ≤ a.length) :
    a = a.take l ++ seg a l r ++ a.drop r := by
  conv_lhs => rw [← List.take_append_drop l a]
  rw [List.append_assoc]
  congr 1
  simp only [seg]
  conv_lhs => rw [← List.take_append_drop (r - l) (a.drop l)]
  congr 1
  rw [List.drop_drop]
  congr 1
  omega

/-- Two lists that are globally permutations of each other and agree
outside `[l, r)` have permuted segments on `[l, r)`. -/
theorem seg_perm_of_perm (a b : List ℕ) (l r : ℕ) (h1 : l ≤ r) (h2 : r ≤ a.length)
    (hp : a.Perm b)
    (h : ∀ p, p < l ∨ r ≤ p → a.getD p 0 = b.getD p 0) :
    (seg a l r).Perm (seg b l r) := by
  have hlen : a.length = b.length := hp.length_eq
  have hta : a.take l = b.take l := take_ext a b l hlen (fun p hpl => h p (Or.inl hpl))
  have hda : a.drop r = b.drop r := drop_ext a b r hlen (fun p hpr => h p (Or.inr hpr))
  have hdeca := seg_decomp a l r h1 h2
  have hdecb := seg_decomp b l r h1 (by omega)
  rw [hdeca, hdecb, hta, hda] at hp
  rw [List.append_assoc, List.append_assoc] at hp
  have hp2 := (List.perm_append_left_iff (b.take l)).mp hp
  exact (List.perm_append_right_iff (b.drop r)).mp hp2

/-- Componentwise membership of a point in a box. -/
def inBox (b : AABB) (p : Vec3) : Prop :=
  b.min.x ≤ p.x ∧ b.min.y ≤ p.y ∧ b.min.z ≤ p.z ∧
  p.x ≤ b.max.x ∧ p.y ≤ b.max.y ∧ p.z ≤ b.max.z

/-- All three corners of triangle `idx` lie in box `b`. -/
def triInBox (vs : List Vec3) (fs : List (List ℕ)) (b : AABB) (idx : ℕ) : Prop :=
  inBox b (vtx vs (fidx (faceAt fs idx) 0)) ∧
  inBox b (vtx vs (fidx (faceAt fs idx) 1)) ∧
  inBox b (vtx vs (fidx (faceAt fs idx) 2))

/-- Every triangle listed in segment `[l, r)` of `a` lies in box `b`. -/
def BoxAll (vs : List Vec3) (fs : List (List ℕ)) (b : AABB) (a : List ℕ)
    (l r : ℕ) : Prop :=
  ∀ idx ∈ seg a l r, triInBox vs fs b idx

theorem inBox_expand (b : AABB) (p v : Vec3) (h : inBox b v) : inBox (b.expand p) v := by
  obtain ⟨h1, h2, h3, h4, h5, h6⟩ := h
  exact ⟨le_trans (min_le_left _ _) h1, le_trans (min_le_left _ _) h2,
    le_trans (min_le_left _ _) h3, le_trans h4 (le_max_left _ _),
    le_trans h5 (le_max_left _ _), le_trans h6 (le_max_left _ _)⟩

theorem inBox_expand_self (b : AABB) (p : Vec3) : inBox (b.expand p) p :=
  ⟨min_le_right _ _, min_le_right _ _, min_le_right _ _,
   le_max_right _ _, le_max_right _ _, le_max_right _ _⟩

theorem inBox_boxStep (vs : List Vec3) (fs : List (List ℕ)) (tri : List ℕ)
    (b : AABB) (i : ℕ) (v : Vec3) (h : inBox b v) :
    inBox (boxStep vs fs tri b i) v :=
  inBox_expand _ _ _ (inBox_expand _ _ _ (inBox_expand _ _ _ h))

theorem triInBox_boxStep_self (vs : List Vec3) (fs : List (List ℕ)) (tri : List ℕ)
    (b : AABB) (i : ℕ) :
    triInBox vs fs (boxStep vs fs tri b i) (tri.getD i 0) :=
  ⟨inBox_expand _ _ _ (inBox_expand _ _ _ (inBox_expand_self _ _)),
   inBox_expand _ _ _ (inBox_expand_self _ _),
   inBox_expand_self _ _⟩

theorem boxFold_mono (vs : List Vec3) (fs : List (List ℕ)) (tri : List ℕ) :
    ∀ (c s : ℕ) (b0 : AABB) (v : Vec3), inBox b0 v →
    inBox ((List.range' s c).foldl (boxStep vs fs tri) b0) v := by
  intro c
  induction c with
  | zero => intro s b0 v h; exact h
  | succ c ih =>
    intro s b0 v h
    rw [List.range'_succ, List.foldl_cons]
    exact ih (s + 1) _ v (inBox_boxStep vs fs tri b0 s v h)

theorem triInBox_mono (vs : List Vec3) (fs : List (List ℕ)) (tri : List ℕ)
    (c s : ℕ) (b0 : AABB) (idx : ℕ) (h : triInBox vs fs b0 idx) :
    triInBox vs fs ((List.range' s c).foldl (boxStep vs fs tri) b0) idx :=
  ⟨boxFold_mono vs fs tri c s b0 _ h.1, boxFold_mono vs fs tri c s b0 _ h.2.1,
   boxFold_mono vs fs tri c s b0 _ h.2.2⟩

theorem boxFold_spec (vs : List Vec3) (fs : List (List ℕ)) (tri : List ℕ) :
    ∀ (c s : ℕ) (b0 : AABB) (p : ℕ), s ≤ p → p < s + c →
    triInBox vs fs ((List.range' s c).foldl (boxStep vs fs tri) b0) (tri.getD p 0) := by
  intro c
  induction c with
  | zero => intro s b0 p h1 h2; omega
  | succ c ih =>
    intro s b0 p h1 h2
    rw [List.range'_succ, List.foldl_cons]
    rcases Nat.eq_or_lt_of_le h1 with heq | hlt
    · subst heq
      exact triInBox_mono vs fs tri c (s + 1) _ _ (triInBox_boxStep_self vs fs tri b0 s)
    · exact ih (s + 1) _ p hlt (by omega)

theorem computeBox_boxAll (vs : List Vec3) (fs : List (List ℕ)) (tri : List ℕ)
    (l r : ℕ) (hr : r ≤ tri.length) :
    BoxAll vs fs (computeBox vs fs tri l r) tri l r := by
  intro idx hm
  obtain ⟨p, hp1, hp2, heq⟩ := mem_seg tri l r idx hm hr
  rw [← heq]
  exact boxFold_spec vs fs tri (r - l) l aabbEmpty p hp1 (by omega)

/-- Structural well-formedness of a built subtree w.r.t. an index list `a`
and a range `[l, r)`: a leaf stores exactly its range, interior nodes split
their range at some interior point, and every node's box contains all three
vertices of every triangle listed in its range of `a`. -/
def TreeOK (vs : List Vec3) (fs : List (List ℕ)) (a : List ℕ) :
    BVHNode → ℕ → ℕ → Prop
  | .mk box none none f c, l, r =>
      f = l ∧ c = r - l ∧ l < r ∧ BoxAll vs fs box a l r
  | .mk box (some L) (some R) _ c, l, r =>
      c = 0 ∧ ∃ m, l < m ∧ m < r ∧ TreeOK vs fs a L l m ∧ TreeOK vs fs a R m r ∧
        BoxAll vs fs box a l r
  | _, _, _ => False

/-- `TreeOK` only looks at `a` inside `[l, r)`, so it transfers to any list
agreeing there. -/
theorem TreeOK_congr (vs : List Vec3) (fs : List (List ℕ)) (a b : List ℕ)
    (hlen : a.length = b.length) :
    ∀ (nd : BVHNode) (l r : ℕ), r ≤ a.length →
    (∀ p, l ≤ p → p < r → a.getD p 0 = b.getD p 0) →
    TreeOK vs fs a nd l r → TreeOK vs fs b nd l r
  | .mk box none none f c, l, r => by
    intro hr hpt hok
    obtain ⟨h1, h2, h3, h4⟩ := hok
    refine ⟨h1, h2, h3, ?_⟩
    intro idx hm
    rw [← seg_ext a b l r hlen hr hpt] at hm
    exact h4 idx hm
  | .mk box (some L) (some R) f c, l, r => by
    intro hr hpt hok
    obtain ⟨hc, m, hm1, hm2, hL, hR, hbox⟩ := hok
    refine ⟨hc, m, hm1, hm2,
      TreeOK_congr vs fs a b hlen L l m (by omega)
        (fun p h1 h2 => hpt p h1 (by omega)) hL,
      TreeOK_congr vs fs a b hlen R m r hr
        (fun p h1 h2 => hpt p (by omega) h2) hR, ?_⟩
    intro idx hm
    rw [← seg_ext a b l r hlen hr hpt] at hm
    exact hbox idx hm
  | .mk box (some L) none f c, l, r => fun _ _ hok => absurd hok (fun h => h)
  | .mk box none (some R) f c, l, r => fun _ _ hok => absurd hok (fun h => h)

/-- The build invariants, by induction on the fuel (which callers set to at
least the range's size): the builder permutes `triIndices` inside `[l, r)`
only, leaves everything else alone, and produces a `TreeOK` tree. -/
theorem buildBVHRec_spec (vs : List Vec3) (fs : List (List ℕ)) :
    ∀ (fuel : ℕ) (a : List ℕ) (l r : ℕ), l < r → r - l ≤ fuel → r ≤ a.length →
    (buildBVHRec vs fs fuel a l r).2.length = a.length ∧
    (∀ p, p < l ∨ r ≤ p →
      (buildBVHRec vs fs fuel a l r).2.getD p 0 = a.getD p 0) ∧
    (seg (buildBVHRec vs fs fuel a l r).2 l r).Perm (seg a l r) ∧
    TreeOK vs fs (buildBVHRec vs fs fuel a l r).2 (buildBVHRec vs fs fuel a l r).1 l r := by
  intro fuel
  induction fuel with
  | zero =>
    intro a l r h1 h2 _
    omega
  | succ fuel ih =>
    intro a l r hlr hfuel hra
    by_cases hcount : r - l ≤ 2
    · have heq : buildBVHRec vs fs (fuel + 1) a l r =
          (.mk (computeBox vs fs a l r) none none l (r - l), a) := by
        simp only [buildBVHRec, if_pos hcount]
      rw [heq]
      refine ⟨rfl, fun p _ => rfl, List.Perm.refl _, ?_⟩
      exact ⟨rfl, rfl, hlr, computeBox_boxAll vs fs a l r hra⟩
    · set box := computeBox vs fs a l r with hbox
      set size := box.max - box.min with hsize
      set axisv : ℕ := if size.x > size.y then (if size.x > size.z then 0 else 2)
        else (if size.y > size.z then 1 else 2) with haxis
      set splitv : ℚ := box.min.nth axisv + size.nth axisv * (0.5 : ℚ) with hsplit
      set pm := partitionLoop vs fs axisv splitv a l r with hpm
      set midv := if pm.2 = l ∨ pm.2 = r then l + (r - l) / 2 else pm.2 with hmidv
      set lres := buildBVHRec vs fs fuel pm.1 l midv with hlres
      set rres := buildBVHRec vs fs fuel lres.2 midv r with hrres
      have heq : buildBVHRec vs fs (fuel + 1) a l r =
          (.mk box (some lres.1) (some rres.1) 0 0, rres.2) := by
        simp only [buildBVHRec, if_neg hcount]
      rw [heq]
      -- partition pass facts
      have hpf := partFold_spec vs fs axisv splitv (r - l) l l a (le_refl l)
        (by omega)
      rw [show l + (r - l) = r by omega] at hpf
      have hpm1 : pm = (List.range' l (r - l)).foldl (partStep vs fs axisv splitv) (a, l) := hpm
      obtain ⟨q1, q2, q3, q4, q5⟩ := hpf
      rw [← hpm1] at q1 q2 q3 q4 q5
      -- the split point is strictly interior
      have hmid : l < midv ∧ midv < r := by
        rw [hmidv]
        split
        · constructor <;> omega
        · next hne =>
          push_neg at hne
          constructor
          · omega
          · rcases Nat.lt_or_ge pm.2 r with h | h
            · exact h
            · exact absurd (le_antisymm q3 h) hne.2
      -- left subtree
      have ihL := ih pm.1 l midv hmid.1 (by omega) (by omega)
      rw [← hlres] at ihL
      obtain ⟨w1, w2, w3, w4⟩ := ihL
      -- right subtree
      have ihR := ih lres.2 midv r hmid.2 (by omega) (by omega)
      rw [← hrres] at ihR
      obtain ⟨e1, e2, e3, e4⟩ := ihR
      -- lengths
      have hlen3 : rres.2.length = a.length := by rw [e1, w1, q1]
      have hlen2 : lres.2.length = a.length := by rw [w1, q1]
      -- the segment [l, r) is only permuted
      have hperm : (seg rres.2 l r).Perm (seg a l r) := by
        have d3 : seg rres.2 l r = seg rres.2 l midv ++ seg rres.2 midv r :=
          seg_split rres.2 l midv r (by omega) (by omega)
        have d1 : seg rres.2 l midv = seg lres.2 l midv :=
          seg_ext rres.2 lres.2 l midv (by omega) (by omega)
            (fun p h1 h2 => e2 p (by omega))
        have d25 : (seg rres.2 midv r).Perm (seg pm.1 midv r) := by
          have d5 : seg lres.2 midv r = seg pm.1 midv r :=
            seg_ext lres.2 pm.1 midv r (by omega) (by omega)
              (fun p h1 h2 => w2 p (by omega))
          rw [← d5]
          exact e3
        have d6 : seg pm.1 l r = seg pm.1 l midv ++ seg pm.1 midv r :=
          seg_split pm.1 l midv r (by omega) (by omega)
        have d7 : (seg pm.1 l r).Perm (seg a l r) :=
          seg_perm_of_perm pm.1 a l r (by omega) (by omega) q4
            (fun p hp => q5 p hp)
        rw [d3, d1]
        have step1 : (seg lres.2 l midv ++ seg rres.2 midv r).Perm
            (seg pm.1 l midv ++ seg pm.1 midv r) := List.Perm.append w3 d25
        rw [← d6] at step1
        exact step1.trans d7
      refine ⟨hlen3, ?_, hperm, ?_⟩
      · -- untouched outside [l, r)
        intro p hp
        have s1 : rres.2.getD p 0 = lres.2.getD p 0 := e2 p (by omega)
        have s2 : lres.2.getD p 0 = pm.1.getD p 0 := w2 p (by omega)
        have s3 : pm.1.getD p 0 = a.getD p 0 := q5 p (by omega)
        rw [s1, s2, s3]
      · -- the tree is well formed over the final list
        show TreeOK vs fs rres.2 (BVHNode.mk box (some lres.1) (some rres.1) 0 0) l r
        refine ⟨rfl, midv, hmid.1, hmid.2, ?_, e4, ?_⟩
        · exact TreeOK_congr vs fs lres.2 rres.2 (by omega) lres.1 l midv (by omega)
            (fun p h1 h2 => (e2 p (by omega)).symm) w4
        · -- the parent box was computed over the entry list `a`
          intro idx hm
          have hmem : idx ∈ seg a l r := hperm.mem_iff.mp hm
          exact computeBox_boxAll vs fs a l r hra idx hmem

theorem perm_of_seg_perm (a b : List ℕ) (n : ℕ) (ha : a.length = n)
    (hb : b.length = n) (h : (seg a 0 n).Perm (seg b 0 n)) : a.Perm b := by
  have h1 : seg a 0 n = a := by
    rw [← ha]
    exact seg_whole a
  have h2 : seg b 0 n = b := by
    rw [← hb]
    exact seg_whole b
  rwa [h1, h2] at h

theorem range'_glue (s m n : ℕ) :
    List.range' s m ++ List.range' (s + m) n = List.range' s (m + n) := by
  have h := List.range'_append s m n 1
  rw [one_mul] at h
  rw [h, Nat.add_comm]

/-- In depth-first order the leaf ranges of a well-formed subtree
concatenate to exactly its range `[l, r)`. -/
theorem leafRanges_flat (vs : List Vec3) (fs : List (List ℕ)) (a : List ℕ) :
    ∀ (nd : BVHNode) (l r : ℕ), TreeOK vs fs a nd l r →
    (leafRanges nd).flatMap (fun p => List.range' p.1 p.2) = List.range' l (r - l)
  | .mk box none none f c, l, r => by
    intro hok
    obtain ⟨h1, h2, _, _⟩ := hok
    simp [leafRanges, h1, h2]
  | .mk box (some L) (some R) f c, l, r => by
    intro hok
    obtain ⟨hc, m, hm1, hm2, hL, hR, _⟩ := hok
    have ihL := leafRanges_flat vs fs a L l m hL
    have ihR := leafRanges_flat vs fs a R m r hR
    show (leafRanges L ++ leafRanges R).flatMap (fun p => List.range' p.1 p.2) =
      List.range' l (r - l)
    rw [List.flatMap_append, ihL, ihR]
    have hg := range'_glue l (m - l) (r - m)
    rw [show l + (m - l) = m by omega] at hg
    rw [hg]
    congr 1
    omega
  | .mk box (some L) none f c, l, r => fun hok => absurd hok (fun h => h)
  | .mk box none (some R) f c, l, r => fun hok => absurd hok (fun h => h)

/-- Claim C2: for every scene with at least one triangle, after `buildBVH`
the reordered index list `triIndices` is a permutation of `0..n-1`, and the
leaf ranges of the built tree are pairwise disjoint and in depth-first
order concatenate to exactly `[0, n)` — every triangle lands in exactly
one leaf, none is duplicated or dropped. -/
theorem buildBVH_coverage (scene : SceneData) (h : scene.faces ≠ []) :
    (buildBVH scene).triIndices.Perm (List.range scene.faces.length) ∧
    ∃ root, (buildBVH scene).bvhRoot = some root ∧
      (leafRanges root).flatMap (fun p => List.range' p.1 p.2) =
        List.range scene.faces.length ∧
      (leafRanges root).Pairwise
        (fun p q => List.Disjoint (List.range' p.1 p.2) (List.range' q.1 q.2)) := by
  have hne : scene.faces.isEmpty = false := by
    simpa [List.isEmpty_iff] using h
  have hn : 0 < scene.faces.length := List.length_pos.mpr h
  have heq : buildBVH scene =
      { scene with
        triIndices := (buildBVHRec scene.vertices scene.faces scene.faces.length
          (List.range scene.faces.length) 0 scene.faces.length).2,
        bvhRoot := some (buildBVHRec scene.vertices scene.faces scene.faces.length
          (List.range scene.faces.length) 0 scene.faces.length).1 } := by
    simp only [buildBVH, hne, Bool.false_eq_true, if_false]
  obtain ⟨b1, b2, b3, b4⟩ := buildBVHRec_spec scene.vertices scene.faces
    scene.faces.length (List.range scene.faces.length) 0 scene.faces.length
    hn (by omega) (by simp)
  have hlen : (buildBVHRec scene.vertices scene.faces scene.faces.length
      (List.range scene.faces.length) 0 scene.faces.length).2.length =
      scene.faces.length := by simpa using b1
  have hperm : (buildBVHRec scene.vertices scene.faces scene.faces.length
      (List.range scene.faces.length) 0 scene.faces.length).2.Perm
      (List.range scene.faces.length) :=
    perm_of_seg_perm _ _ scene.faces.length hlen (by simp) b3
  have hflat := leafRanges_flat scene.vertices scene.faces _ _ 0 scene.faces.length b4
  rw [Nat.sub_zero, ← List.range_eq_range'] at hflat
  refine ⟨?_, ?_⟩
  · rw [heq]
    exact hperm
  · refine ⟨_, by rw [heq], hflat, ?_⟩
    have hnd : ((leafRanges (buildBVHRec scene.vertices scene.faces scene.faces.length
        (List.range scene.faces.length) 0 scene.faces.length).1).flatMap
        (fun p => List.range' p.1 p.2)).Nodup := by
      rw [hflat]
      exact List.nodup_range _
    exact (List.nodup_flatMap.mp hnd).2

/-- A three-triangle scene used to witness the coverage claim. -/
def sceneW2 : SceneData :=
  { vertices := [⟨0, 0, 0⟩, ⟨1, 0, 0⟩, ⟨0, 1, 0⟩, ⟨4, 0, 0⟩, ⟨5, 0, 0⟩, ⟨4, 1, 0⟩,
                 ⟨9, 0, 0⟩, ⟨10, 0, 0⟩, ⟨9, 1, 0⟩]
    faces := [[0, 1, 2], [3, 4, 5], [6, 7, 8]]
    triIndices := []
    textures := []
    faceTextureID := []
    faceUVs := []
    bvhRoot := none }

/-- Witness for claim C2 at the concrete scene `sceneW2`. -/
theorem buildBVH_coverage_witness :
    (buildBVH sceneW2).triIndices.Perm (List.range sceneW2.faces.length) ∧
    ∃ root, (buildBVH sceneW2).bvhRoot = some root ∧
      (leafRanges root).flatMap (fun p => List.range' p.1 p.2) =
        List.range sceneW2.faces.length ∧
      (leafRanges root).Pairwise
        (fun p q => List.Disjoint (List.range' p.1 p.2) (List.range' q.1 q.2)) :=
  buildBVH_coverage sceneW2 (by decide)

/-- The result bundle of `getIntersection`: the returned `bool` together
with the out-parameters `t`, `id`, `normalHit`, `hitFaceIndex`, `hitU`,
`hitV`.  In C++ the last four start out uninitialised in the caller; we
start them at fixed defaults (they are only read after a hit sets them,
`hitFaceIndex` excepted, which `getIntersection` itself initialises
to `-1`). -/
structure HitRec where
  t : ℚ
  id : ℕ
  hit : Bool
  normalHit : Vec3
  hitFaceIndex : ℤ
  hitU : ℚ
  hitV : ℚ
deriving DecidableEq, Repr

/-- The state `getIntersection` starts from: `t = 1e20`, `id = 0`,
`hit = false`, `hitFaceIndex = -1`. -/
def noHit : HitRec :=
  { t := 1e20, id := 0, hit := false, normalHit := ⟨0, 0, 0⟩,
    hitFaceIndex := -1, hitU := 0, hitV := 0 }

/-- The body of the leaf loop of `getIntersection`: test the triangle at
position `i` of `triIndices` and replace the running best hit when the
reported distance is positive and strictly closer. -/
def tryTriangle (ops : RealOps) (scene : SceneData) (r : Ray)
    (best : HitRec) (i : ℕ) : HitRec :=
  let realIdx := scene.triIndices.getD i 0
  let face := faceAt scene.faces realIdx
  let v0 := vtx scene.vertices (fidx face 0)
  let v1 := vtx scene.vertices (fidx face 1)
  let v2 := vtx scene.vertices (fidx face 2)
  let duv := intersectTriangle r v0 v1 v2
  if duv.1 > 0 ∧ duv.1 < best.t then
    { t := duv.1, id := 1, hit := true,
      normalHit := Vec3.normV ops ((v1 - v0).cross (v2 - v0)),
      hitFaceIndex := (realIdx : ℤ), hitU := duv.2.1, hitV := duv.2.2 }
  else best

/-- The iterative BVH walk of `getIntersection`.  The C++ loop keeps an
explicit array stack; we keep the same stack as a list whose head is the
top.  The extra `hi` accumulator records the highest value the C++
`stackPtr` reaches (the list length after each push), so that the
out-of-bounds question of claim C9 can be asked of it; `fuel` makes the
termination measure (total nodes remaining) explicit and is set by the
caller to more than the tree size, which suffices. -/
def traverseBVH (ops : RealOps) (scene : SceneData) (r : Ray) :
    ℕ → List BVHNode → HitRec → ℕ → HitRec × ℕ
  | 0, _, best, hi => (best, hi)
  | _ + 1, [], best, hi => (best, hi)
  | fuel + 1, node :: rest, best, hi =>
    if node.box.intersect r best.t = false then traverseBVH ops scene r fuel rest best hi
    else if node.triCount > 0 then
      traverseBVH ops scene r fuel rest
        ((List.range' node.firstTriIndex node.triCount).foldl
          (tryTriangle ops scene r) best) hi
    else
      let stack' :=
        match node.left, node.right with
        | some L, some R => L :: R :: rest
        | some L, none => L :: rest
        | none, some R => R :: rest
        | none, none => rest
      traverseBVH ops scene r fuel stack' best (Max.max hi stack'.length)

/-- Number of nodes of a BVH subtree (the traversal's termination
measure). -/
def bvhSize : BVHNode → ℕ
  | .mk _ (some L) (some R) _ _ => 1 + bvhSize L + bvhSize R
  | .mk _ (some L) none _ _ => 1 + bvhSize L
  | .mk _ none (some R) _ _ => 1 + bvhSize R
  | .mk _ none none _ _ => 1

/-- Embedding of `getIntersection`: BVH mesh walk, then the analytic
ground plane `y = -1.2` (only tested when `|d.y| > 1e-6`, replacing the
best hit only when strictly closer), then the analytic light sphere around
`(0, 0.6, 0)` (replacing only when strictly closer).  The scene argument
models the global `g_renderMesh` pointer (`none` = null). -/
def getIntersection (ops : RealOps) (scene : Option SceneData) (r : Ray) : HitRec :=
  let mesh :=
    match scene with
    | none => noHit
    | some sc =>
      match sc.bvhRoot with
      | none => noHit
      | some root => (traverseBVH ops sc r (bvhSize root + 1) [root] noHit 1).1
  let g :=
    if |r.d.y| > 1e-6 then
      let t_plane := (-1.2 - r.o.y) * r.inv_d.y
      if t_plane > 1e-4 ∧ t_plane < mesh.t then
        { mesh with t := t_plane, id := 2, hit := true, normalHit := ⟨0, 1, 0⟩ }
      else mesh
    else mesh
  let L : Vec3 := ⟨0, 0.6, 0⟩
  let op := L - r.o
  let b := op.dot r.d
  let det := b * b - op.dot op + 0.01
  if det > 0 then
    let t_luz := b - ops.sqrt det
    if t_luz > 1e-4 ∧ t_luz < g.t then
      { g with
        t := t_luz
        id := 3
        hit := true
        normalHit := Vec3.normV ops (r.o + r.d * t_luz - L) }
    else g
  else g

/-- The high-water mark of the C++ `stackPtr` during the mesh phase of
`getIntersection` (0 when the mesh phase is skipped; the initial push of
the root makes it at least 1 otherwise). -/
def getIntersectionMaxStack (ops : RealOps) (scene : Option SceneData)
    (r : Ray) : ℕ :=
  match scene with
  | none => 0
  | some sc =>
    match sc.bvhRoot with
    | none => 0
    | some root => (traverseBVH ops sc r (bvhSize root + 1) [root] noHit 1).2

/-- Newton iteration used to give the abstract `sqrt` a concrete
computable rational stand-in for witnesses. -/
def sqrtIter : ℕ → ℚ → ℚ → ℚ
  | 0, _, x => x
  | n + 1, q, x => sqrtIter n q ((x + q / x) / 2)

/-- Computable approximate square root on `ℚ` (exact on many perfect
squares after 8 Newton steps; positive on positive input). -/
def ratSqrt (q : ℚ) : ℚ := if q ≤ 0 then 0 else sqrtIter 8 q ((q + 1) / 2)

/-- Computable stand-ins for cosine and sine (Taylor heads; exact at 0). -/
def ratCos (q : ℚ) : ℚ := 1 - q ^ 2 / 2 + q ^ 4 / 24

def ratSin (q : ℚ) : ℚ := q - q ^ 3 / 6

/-- A concrete `RealOps` used by witnesses and counterexamples. -/
def ratOps : RealOps := ⟨ratSqrt, ratCos, ratSin, fun q => q⟩

/-- Shape invariant of built nodes: leaves (no children) carry a positive
`triCount`, interior nodes have both children and `triCount = 0` (this is
what makes the traversal's `triCount > 0` test agree with leaf-ness). -/
def WFNode : BVHNode → Prop
  | .mk _ none none _ c => 0 < c
  | .mk _ (some L) (some R) _ c => c = 0 ∧ WFNode L ∧ WFNode R
  | _ => False

/-- Number of leaves of a subtree. -/
def leafCount : BVHNode → ℕ
  | .mk _ (some L) (some R) _ _ => leafCount L + leafCount R
  | _ => 1

theorem leafCount_pos : ∀ nd : BVHNode, 1 ≤ leafCount nd
  | .mk _ (some L) (some R) _ _ => by
    have := leafCount_pos L
    show 1 ≤ leafCount L + leafCount R
    omega
  | .mk _ none none _ _ => le_refl 1
  | .mk _ (some _) none _ _ => le_refl 1
  | .mk _ none (some _) _ _ => le_refl 1

theorem TreeOK_WFNode (vs : List Vec3) (fs : List (List ℕ)) (a : List ℕ) :
    ∀ (nd : BVHNode) (l r : ℕ), TreeOK vs fs a nd l r → WFNode nd
  | .mk box none none f c, l, r => fun hok => by
    obtain ⟨_, h2, h3, _⟩ := hok
    show 0 < c
    omega
  | .mk box (some L) (some R) f c, l, r => fun hok => by
    obtain ⟨hc, m, hm1, hm2, hL, hR, _⟩ := hok
    exact ⟨hc, TreeOK_WFNode vs fs a L l m hL, TreeOK_WFNode vs fs a R m r hR⟩
  | .mk box (some L) none f c, l, r => fun hok => absurd hok (fun h => h)
  | .mk box none (some R) f c, l, r => fun hok => absurd hok (fun h => h)

theorem TreeOK_leafCount (vs : List Vec3) (fs : List (List ℕ)) (a : List ℕ) :
    ∀ (nd : BVHNode) (l r : ℕ), TreeOK vs fs a nd l r → leafCount nd ≤ r - l
  | .mk box none none f c, l, r => fun hok => by
    obtain ⟨_, _, h3, _⟩ := hok
    show 1 ≤ r - l
    omega
  | .mk box (some L) (some R) f c, l, r => fun hok => by
    obtain ⟨hc, m, hm1, hm2, hL, hR, _⟩ := hok
    have h1 := TreeOK_leafCount vs fs a L l m hL
    have h2 := TreeOK_leafCount vs fs a R m r hR
    show leafCount L + leafCount R ≤ r - l
    omega
  | .mk box (some L) none f c, l, r => fun hok => absurd hok (fun h => h)
  | .mk box none (some R) f c, l, r => fun hok => absurd hok (fun h => h)

theorem stack_length_le_leafSum : ∀ stack : List BVHNode,
    stack.length ≤ (stack.map leafCount).sum := by
  intro stack
  induction stack with
  | nil => simp
  | cons nd rest ih =>
    have := leafCount_pos nd
    simp only [List.length_cons, List.map_cons, List.sum_cons]
    omega

/-- The stack high-water mark never exceeds the larger of its running value
and the total number of leaves below the stacked subtrees. -/
theorem traverse_hi_bound (ops : RealOps) (sc : SceneData) (r : Ray) :
    ∀ (fuel : ℕ) (stack : List BVHNode) (best : HitRec) (hi : ℕ),
    (∀ nd ∈ stack, WFNode nd) →
    (traverseBVH ops sc r fuel stack best hi).2 ≤
      Max.max hi ((stack.map leafCount).sum) := by
  intro fuel
  induction fuel with
  | zero => intro stack best hi _; exact le_max_left _ _
  | succ fuel ih =>
    intro stack best hi hwf
    match stack with
    | [] => exact le_max_left _ _
    | node :: rest =>
      have hwfn := hwf node (List.mem_cons_self _ _)
      have hwfr : ∀ nd ∈ rest, WFNode nd := fun nd hm => hwf nd (List.mem_cons_of_mem _ hm)
      show (traverseBVH ops sc r (fuel + 1) (node :: rest) best hi).2 ≤ _
      rw [traverseBVH]
      by_cases hbox : node.box.intersect r best.t = false
      · rw [if_pos hbox]
        refine le_trans (ih rest best hi hwfr) ?_
        simp only [List.map_cons, List.sum_cons]
        have := leafCount_pos node
        rcases max_cases hi ((rest.map leafCount).sum) with ⟨h1, _⟩ | ⟨h1, _⟩ <;>
          rw [h1] <;> simp [le_max_iff] <;> omega
      · rw [if_neg hbox]
        by_cases hleaf : node.triCount > 0
        · rw [if_pos hleaf]
          refine le_trans (ih rest _ hi hwfr) ?_
          simp only [List.map_cons, List.sum_cons]
          rcases max_cases hi ((rest.map leafCount).sum) with ⟨h1, _⟩ | ⟨h1, _⟩ <;>
            rw [h1] <;> simp [le_max_iff] <;> omega
        · rw [if_neg hleaf]
          match node, hwfn with
          | .mk box (some L) (some R) f c, hwfn =>
            obtain ⟨hc, hwL, hwR⟩ := hwfn
            have hwf' : ∀ nd ∈ L :: R :: rest, WFNode nd := by
              intro nd hm
              rcases hm with _ | ⟨_, hm⟩
              · exact hwL
              · rcases hm with _ | ⟨_, hm⟩
                · exact hwR
                · exact hwfr nd hm
            simp only [BVHNode.left, BVHNode.right]
            refine le_trans (ih (L :: R :: rest) best _ hwf') ?_
            have hlen : (L :: R :: rest).length ≤ ((L :: R :: rest).map leafCount).sum :=
              stack_length_le_leafSum _
            simp only [List.map_cons, List.sum_cons, List.length_cons, leafCount] at hlen ⊢
            omega
          | .mk box none none f c, hwfn =>
            have hc : 0 < c := hwfn
            exact absurd hc (by simpa [BVHNode.triCount] using hleaf)

/-- Amended claim C9 (general part): for every scene with at most 64
triangles, every math-ops choice and every ray, the traversal stack pointer
never exceeds 64, so the write `stack[stackPtr++]` stays in bounds.  (The
original claim, for arbitrary scenes, is refuted by
`bvh_stack_overflow_counterexample` below: a 66-triangle scene drives the
pointer to 65.) -/
theorem bvh_stack_bound (ops : RealOps) (scene : SceneData) (r : Ray)
    (hne : scene.faces ≠ []) (hn : scene.faces.length ≤ 64) :
    getIntersectionMaxStack ops (some (buildBVH scene)) r ≤ 64 := by
  have hne' : scene.faces.isEmpty = false := by
    simpa [List.isEmpty_iff] using hne
  have hnpos : 0 < scene.faces.length := List.length_pos.mpr hne
  have heq : buildBVH scene =
      { scene with
        triIndices := (buildBVHRec scene.vertices scene.faces scene.faces.length
          (List.range scene.faces.length) 0 scene.faces.length).2,
        bvhRoot := some (buildBVHRec scene.vertices scene.faces scene.faces.length
          (List.range scene.faces.length) 0 scene.faces.length).1 } := by
    simp only [buildBVH, hne', Bool.false_eq_true, if_false]
  obtain ⟨b1, b2, b3, b4⟩ := buildBVHRec_spec scene.vertices scene.faces
    scene.faces.length (List.range scene.faces.length) 0 scene.faces.length
    hnpos (by omega) (by simp)
  rw [heq]
  show (traverseBVH ops _ r _ [_] noHit 1).2 ≤ 64
  refine le_trans (traverse_hi_bound _ _ r _ [_] noHit 1 ?_) ?_
  · intro nd hm
    rcases hm with _ | ⟨_, hm⟩
    · exact TreeOK_WFNode _ _ _ _ 0 scene.faces.length b4
    · exact absurd hm (List.not_mem_nil nd)
  · have hlc := TreeOK_leafCount _ _ _ _ 0 scene.faces.length b4
    simp only [List.map_cons, List.map_nil, List.sum_cons, List.sum_nil]
    rcases max_cases 1 (leafCount (buildBVHRec scene.vertices scene.faces
      scene.faces.length (List.range scene.faces.length) 0
      scene.faces.length).1 + 0) with ⟨h1, _⟩ | ⟨h1, _⟩ <;> rw [h1] <;> omega

/-- Witness for the amended claim C9 at the concrete scene `sceneW2`. -/
theorem bvh_stack_bound_witness :
    getIntersectionMaxStack ratOps (some (buildBVH sceneW2))
      (mkRay ⟨0, 0, 0⟩ ⟨1, 1, 1⟩) ≤ 64 :=
  bvh_stack_bound ratOps sceneW2 (mkRay ⟨0, 0, 0⟩ ⟨1, 1, 1⟩) (by decide) (by decide)

/-- Vertex `k` of the stack-overflow scene: triangle `i = k/3` is a tall
thin triangle in the plane `x = 2^i`.  The exponential spacing makes every
midpoint split send all triangles but the largest to the left, producing a
maximally left-heavy tree. -/
def cexVert (k : ℕ) : Vec3 :=
  if k % 3 = 0 then ⟨2 ^ (k / 3), -1, -1⟩
  else if k % 3 = 1 then ⟨2 ^ (k / 3), -1, 1⟩
  else ⟨2 ^ (k / 3), 1, 0⟩

/-- The 66-triangle scene on which the traversal stack pointer reaches 65. -/
def cexScene9 : SceneData :=
  { vertices := (List.range 198).map cexVert
    faces := (List.range 66).map (fun i => [3 * i, 3 * i + 1, 3 * i + 2])
    triIndices := []
    textures := []
    faceTextureID := []
    faceUVs := []
    bvhRoot := none }

/-- A ray down the x axis, which intersects every spine box. -/
def cexRay9 : Ray := mkRay ⟨0, 0, 0⟩ ⟨1, 0, 0⟩

/-- Box of the left-spine node covering triangles `0..k`. -/
def spineBox (k : ℕ) : AABB := ⟨⟨1, -1, -1⟩, ⟨2 ^ k, 1, 1⟩⟩

/-- Box of the singleton leaf holding triangle `k`. -/
def leafBox (k : ℕ) : AABB := ⟨⟨2 ^ k, -1, -1⟩, ⟨2 ^ k, 1, 1⟩⟩

/-- The left-heavy tree that `buildBVH` produces on `cexScene9`:
`spineTree k` covers triangles `0..k`. -/
def spineTree : ℕ → BVHNode
  | 0 => .mk (spineBox 0) none none 0 1
  | 1 => .mk (spineBox 1) none none 0 2
  | k + 2 => .mk (spineBox (k + 2)) (some (spineTree (k + 1)))
      (some (.mk (leafBox (k + 2)) none none (k + 2) 1)) 0 0

theorem a66_getD (i : ℕ) (h : i < 66) : (List.range 66).getD i 0 = i := by
  rw [List.getD_eq_getElem _ 0 (by simpa using h)]
  simp

theorem cex_face (i : ℕ) (h : i < 66) :
    faceAt cexScene9.faces i = [3 * i, 3 * i + 1, 3 * i + 2] := by
  show ((List.range 66).map fun i => [3 * i, 3 * i + 1, 3 * i + 2]).getD i [] = _
  rw [List.getD_eq_getElem _ _ (by simpa using h)]
  simp

theorem cex_vtx (k : ℕ) (h : k < 198) : vtx cexScene9.vertices k = cexVert k := by
  show ((List.range 198).map cexVert).getD k _ = _
  rw [List.getD_eq_getElem _ _ (by simpa using h)]
  simp

theorem cex_tri_verts (i : ℕ) (h : i < 66) :
    vtx cexScene9.vertices (3 * i) = ⟨2 ^ i, -1, -1⟩ ∧
    vtx cexScene9.vertices (3 * i + 1) = ⟨2 ^ i, -1, 1⟩ ∧
    vtx cexScene9.vertices (3 * i + 2) = ⟨2 ^ i, 1, 0⟩ := by
  rw [cex_vtx (3 * i) (by omega), cex_vtx (3 * i + 1) (by omega),
    cex_vtx (3 * i + 2) (by omega)]
  unfold cexVert
  refine ⟨?_, ?_, ?_⟩
  · rw [if_pos (by omega)]
    have he : 3 * i / 3 = i := by omega
    rw [he]
  · rw [if_neg (by omega), if_pos (by omega)]
    have he : (3 * i + 1) / 3 = i := by omega
    rw [he]
  · rw [if_neg (by omega), if_neg (by omega)]
    have he : (3 * i + 2) / 3 = i := by omega
    rw [he]

theorem cex_centroid (i : ℕ) (h : i < 66) :
    getCentroid cexScene9.vertices cexScene9.faces i =
      ⟨((2 : ℚ) ^ i + 2 ^ i + 2 ^ i) * 0.333333, (-1 + -1 + 1) * 0.333333,
        (-1 + 1 + 0) * 0.333333⟩ := by
  obtain ⟨h0, h1, h2⟩ := cex_tri_verts i h
  unfold getCentroid
  rw [cex_face i h]
  show (vtx cexScene9.vertices (fidx _ 0) + vtx cexScene9.vertices (fidx _ 1) +
    vtx cexScene9.vertices (fidx _ 2)) * (0.333333 : ℚ) = _
  have f0 : fidx [3 * i, 3 * i + 1, 3 * i + 2] 0 = 3 * i := rfl
  have f1 : fidx [3 * i, 3 * i + 1, 3 * i + 2] 1 = 3 * i + 1 := rfl
  have f2 : fidx [3 * i, 3 * i + 1, 3 * i + 2] 2 = 3 * i + 2 := rfl
  rw [f0, f1, f2, h0, h1, h2]
  rfl

theorem cex_lt_split (i k : ℕ) (hik : i < k) :
    ((2 : ℚ) ^ i + 2 ^ i + 2 ^ i) * 0.333333 < 1 + ((2 : ℚ) ^ k - 1) * 0.5 := by
  have h1 : (2 : ℚ) ^ i ≤ 2 ^ (k - 1) := by
    apply pow_le_pow_right (by norm_num)
    omega
  have h2 : (0 : ℚ) < 2 ^ (k - 1) := by positivity
  have h3 : (2 : ℚ) ^ k = 2 * 2 ^ (k - 1) := by
    rw [← pow_succ']
    congr 1
    omega
  nlinarith

theorem cex_ge_split (k : ℕ) (hk : 1 ≤ k) :
    ¬ (((2 : ℚ) ^ k + 2 ^ k + 2 ^ k) * 0.333333 < 1 + ((2 : ℚ) ^ k - 1) * 0.5) := by
  intro hlt
  have h1 : (2 : ℚ) ≤ 2 ^ k := by
    have := pow_le_pow_right (a := (2 : ℚ)) (by norm_num) hk
    simpa using this
  nlinarith

theorem cex_boxStep (c : ℕ) (hc : c < 66) (b : AABB) :
    boxStep cexScene9.vertices cexScene9.faces (List.range 66) b c =
      ((b.expand ⟨2 ^ c, -1, -1⟩).expand ⟨2 ^ c, -1, 1⟩).expand ⟨2 ^ c, 1, 0⟩ := by
  obtain ⟨h0, h1, h2⟩ := cex_tri_verts c hc
  unfold boxStep
  rw [a66_getD c hc, cex_face c hc]
  show ((b.expand (vtx cexScene9.vertices (fidx [3 * c, 3 * c + 1, 3 * c + 2] 0))).expand
      (vtx cexScene9.vertices (fidx [3 * c, 3 * c + 1, 3 * c + 2] 1))).expand
      (vtx cexScene9.vertices (fidx [3 * c, 3 * c + 1, 3 * c + 2] 2)) = _
  rw [show fidx [3 * c, 3 * c + 1, 3 * c + 2] 0 = 3 * c from rfl,
    show fidx [3 * c, 3 * c + 1, 3 * c + 2] 1 = 3 * c + 1 from rfl,
    show fidx [3 * c, 3 * c + 1, 3 * c + 2] 2 = 3 * c + 2 from rfl,
    h0, h1, h2]

theorem cex_box (c : ℕ) (h1 : 1 ≤ c) (h66 : c ≤ 66) :
    computeBox cexScene9.vertices cexScene9.faces (List.range 66) 0 c =
      spineBox (c - 1) := by
  induction c with
  | zero => omega
  | succ c ih =>
    by_cases hc0 : c = 0
    · subst hc0
      decide
    · have hc1 : 1 ≤ c := by omega
      have hbox := ih hc1 (by omega)
      show (List.range' 0 (c + 1 - 0)).foldl
        (boxStep cexScene9.vertices cexScene9.faces (List.range 66)) aabbEmpty = _
      rw [show c + 1 - 0 = c + 1 from rfl, List.range'_concat, List.foldl_append]
      have hfold : (List.range' 0 c).foldl
          (boxStep cexScene9.vertices cexScene9.faces (List.range 66)) aabbEmpty =
          spineBox (c - 1) := by
        show computeBox cexScene9.vertices cexScene9.faces (List.range 66) 0 c = _
        exact hbox
      rw [hfold]
      show boxStep cexScene9.vertices cexScene9.faces (List.range 66)
        (spineBox (c - 1)) (0 + 1 * c) = spineBox (c + 1 - 1)
      rw [show 0 + 1 * c = c by ring]
      rw [cex_boxStep c (by omega)]
      have hp1 : (1 : ℚ) ≤ 2 ^ c := one_le_pow₀ (by norm_num)
      have hp2 : (2 : ℚ) ^ (c - 1) ≤ 2 ^ c := pow_le_pow_right (by norm_num) (by omega)
      show AABB.mk
        ⟨Min.min (Min.min (Min.min (1 : ℚ) (2 ^ c)) (2 ^ c)) (2 ^ c),
         Min.min (Min.min (Min.min (-1 : ℚ) (-1)) (-1)) 1,
         Min.min (Min.min (Min.min (-1 : ℚ) (-1)) 1) 0⟩
        ⟨Max.max (Max.max (Max.max ((2 : ℚ) ^ (c - 1)) (2 ^ c)) (2 ^ c)) (2 ^ c),
         Max.max (Max.max (Max.max (1 : ℚ) (-1)) (-1)) 1,
         Max.max (Max.max (Max.max (1 : ℚ) (-1)) 1) 0⟩ = spineBox c
    /- the six components reduce to `1, -1, -1, 2^c, 1, 1` -/
      rw [min_eq_left hp1, min_eq_left hp1, min_eq_left hp1]
      rw [max_eq_right hp2, max_self, max_self]
      unfold spineBox
      congr 1 <;> congr 1 <;> first | rfl | decide

theorem cex_leaf_box (k : ℕ) (hk2 : 2 ≤ k) (hk : k ≤ 65) :
    computeBox cexScene9.vertices cexScene9.faces (List.range 66) k (k + 1) =
      leafBox k := by
  show (List.range' k (k + 1 - k)).foldl
    (boxStep cexScene9.vertices cexScene9.faces (List.range 66)) aabbEmpty = _
  rw [show k + 1 - k = 1 by omega]
  rw [show List.range' k 1 = [k] from rfl, List.foldl_cons, List.foldl_nil]
  rw [cex_boxStep k (by omega)]
  have hp20 : (2 : ℚ) ^ k ≤ 1e20 := by
    have h1 : (2 : ℚ) ^ k ≤ 2 ^ 65 := pow_le_pow_right (by norm_num) hk
    have h2 : (2 : ℚ) ^ 65 ≤ 1e20 := by norm_num
    linarith
  have hpneg : (-1e20 : ℚ) ≤ 2 ^ k := by
    have : (0 : ℚ) < 2 ^ k := by positivity
    linarith
  show AABB.mk
    ⟨Min.min (Min.min (Min.min (1e20 : ℚ) (2 ^ k)) (2 ^ k)) (2 ^ k),
     Min.min (Min.min (Min.min (1e20 : ℚ) (-1)) (-1)) 1,
     Min.min (Min.min (Min.min (1e20 : ℚ) (-1)) 1) 0⟩
    ⟨Max.max (Max.max (Max.max (-1e20 : ℚ) (2 ^ k)) (2 ^ k)) (2 ^ k),
     Max.max (Max.max (Max.max (-1e20 : ℚ) (-1)) (-1)) 1,
     Max.max (Max.max (Max.max (-1e20 : ℚ) (-1)) 1) 0⟩ = leafBox k
  rw [min_eq_right hp20, min_self, min_self]
  rw [max_eq_right hpneg, max_self, max_self]
  unfold leafBox
  congr 1 <;> congr 1 <;> first | rfl | decide

theorem partFold_all_true (vs : List Vec3) (fs : List (List ℕ)) (axis : ℕ) (split : ℚ) :
    ∀ (c s : ℕ) (a : List ℕ), s + c ≤ a.length →
    (∀ i, s ≤ i → i < s + c → (getCentroid vs fs (a.getD i 0)).nth axis < split) →
    (List.range' s c).foldl (partStep vs fs axis split) (a, s) = (a, s + c) := by
  intro c
  induction c with
  | zero =>
    intro s a _ _
    rfl
  | succ c ih =>
    intro s a hlen hall
    rw [List.range'_succ, List.foldl_cons]
    have hstep : partStep vs fs axis split (a, s) s = (a, s + 1) := by
      simp only [partStep]
      rw [if_pos (hall s le_rfl (by omega))]
      show (listSwap a s s, s + 1) = (a, s + 1)
      have hsw : listSwap a s s = a := by
        show (a.set s (a.getD s 0)).set s (a.getD s 0) = a
        rw [List.set_set]
        exact set_getD_self a s (by omega)
      rw [hsw]
    rw [hstep]
    have := ih (s + 1) a (by omega) (fun i h1 h2 => hall i (by omega) (by omega))
    rw [this]
    congr 1
    omega

theorem cex_partition (k : ℕ) (hk2 : 2 ≤ k) (hk : k ≤ 65) :
    partitionLoop cexScene9.vertices cexScene9.faces 0 (1 + ((2 : ℚ) ^ k - 1) * 0.5)
      (List.range 66) 0 (k + 1) = (List.range 66, k) := by
  unfold partitionLoop
  rw [show k + 1 - 0 = k + 1 from rfl, List.range'_concat, List.foldl_append]
  have h1 : (List.range' 0 k).foldl
      (partStep cexScene9.vertices cexScene9.faces 0 (1 + ((2 : ℚ) ^ k - 1) * 0.5))
      (List.range 66, 0) = (List.range 66, k) := by
    have hal : ∀ i, 0 ≤ i → i < 0 + k →
        (getCentroid cexScene9.vertices cexScene9.faces
          ((List.range 66).getD i 0)).nth 0 < 1 + ((2 : ℚ) ^ k - 1) * 0.5 := by
      intro i _ h2
      rw [a66_getD i (by omega), cex_centroid i (by omega)]
      exact cex_lt_split i k (by omega)
    have := partFold_all_true cexScene9.vertices cexScene9.faces 0
      (1 + ((2 : ℚ) ^ k - 1) * 0.5) k 0 (List.range 66) (by simp; omega) hal
    simpa using this
  rw [h1, List.foldl_cons, List.foldl_nil]
  show partStep cexScene9.vertices cexScene9.faces 0 (1 + ((2 : ℚ) ^ k - 1) * 0.5)
    (List.range 66, k) (0 + 1 * k) = _
  rw [show 0 + 1 * k = k by ring]
  simp only [partStep]
  rw [if_neg ?hcond]
  case hcond =>
    show ¬ ((getCentroid cexScene9.vertices cexScene9.faces
      ((List.range 66).getD k 0)).nth 0 < 1 + ((2 : ℚ) ^ k - 1) * 0.5)
    rw [a66_getD k (by omega), cex_centroid k (by omega)]
    exact cex_ge_split k (by omega)

/-- On the exponential scene, `buildBVHRecursive` produces exactly the
left-heavy spine: the index list stays `0..65`, and the tree over
triangles `0..k` is `spineTree k`. -/
theorem cex_build (k : ℕ) :
    1 ≤ k → k ≤ 65 → ∀ fuel, k + 1 ≤ fuel →
    buildBVHRec cexScene9.vertices cexScene9.faces fuel (List.range 66) 0 (k + 1) =
      (spineTree k, List.range 66) := by
  induction k with
  | zero => intro h; omega
  | succ k ih =>
    intro _ hk65 fuel hfuel
    obtain ⟨fuel, rfl⟩ : ∃ f, fuel = f + 1 := ⟨fuel - 1, by omega⟩
    by_cases hk0 : k = 0
    · subst hk0
      have heq : buildBVHRec cexScene9.vertices cexScene9.faces (fuel + 1)
          (List.range 66) 0 2 =
          (.mk (computeBox cexScene9.vertices cexScene9.faces (List.range 66) 0 2)
            none none 0 2, List.range 66) := by
        simp only [buildBVHRec, if_pos (by norm_num : 2 - 0 ≤ 2)]
      rw [heq, cex_box 2 (by omega) (by omega)]
      rfl
    · have hk1 : 1 ≤ k := by omega
      have hcount : ¬ (k + 1 + 1 - 0 ≤ 2) := by omega
      set box := computeBox cexScene9.vertices cexScene9.faces (List.range 66) 0
        (k + 1 + 1) with hbox
      set size := box.max - box.min with hsize
      set axisv : ℕ := if size.x > size.y then (if size.x > size.z then 0 else 2)
        else (if size.y > size.z then 1 else 2) with haxis
      set splitv : ℚ := box.min.nth axisv + size.nth axisv * (0.5 : ℚ) with hsplit
      set pm := partitionLoop cexScene9.vertices cexScene9.faces axisv splitv
        (List.range 66) 0 (k + 1 + 1) with hpm
      set midv := if pm.2 = 0 ∨ pm.2 = k + 1 + 1 then 0 + (k + 1 + 1 - 0) / 2 else pm.2
        with hmidv
      set lres := buildBVHRec cexScene9.vertices cexScene9.faces fuel pm.1 0 midv
        with hlres
      set rres := buildBVHRec cexScene9.vertices cexScene9.faces fuel lres.2 midv
        (k + 1 + 1) with hrres
      have heq : buildBVHRec cexScene9.vertices cexScene9.faces (fuel + 1)
          (List.range 66) 0 (k + 1 + 1) =
          (.mk box (some lres.1) (some rres.1) 0 0, rres.2) := by
        simp only [buildBVHRec, if_neg hcount]
      have hbox' : box = spineBox (k + 1) := by
        rw [hbox]
        exact cex_box (k + 2) (by omega) (by omega)
      have hpow4 : (4 : ℚ) ≤ 2 ^ (k + 1) := by
        have h1 : ((2 : ℚ)) ^ 2 ≤ 2 ^ (k + 1) := pow_le_pow_right (by norm_num) (by omega)
        norm_num at h1
        exact h1
      have hsize' : size = ⟨2 ^ (k + 1) - 1, 1 - -1, 1 - -1⟩ := by
        rw [hsize, hbox']
        rfl
      have haxis' : axisv = 0 := by
        rw [haxis, hsize']
        show (if (2 : ℚ) ^ (k + 1) - 1 > 1 - -1 then
          (if (2 : ℚ) ^ (k + 1) - 1 > 1 - -1 then 0 else 2) else _) = 0
        rw [if_pos (by nlinarith), if_pos (by nlinarith)]
      have hsplit' : splitv = 1 + ((2 : ℚ) ^ (k + 1) - 1) * 0.5 := by
        rw [hsplit, haxis', hsize', hbox']
        show (spineBox (k + 1)).min.x + ((2 : ℚ) ^ (k + 1) - 1) * 0.5 = _
        rfl
      have hpm' : pm = (List.range 66, k + 1) := by
        rw [hpm, haxis', hsplit']
        exact cex_partition (k + 1) (by omega) (by omega)
      have hmid' : midv = k + 1 := by
        rw [hmidv, hpm']
        rw [if_neg (by omega)]
      have hlres' : lres = (spineTree k, List.range 66) := by
        rw [hlres, hpm', hmid']
        exact ih hk1 (by omega) fuel (by omega)
      have hrres' : rres = (.mk (leafBox (k + 1)) none none (k + 1) 1, List.range 66) := by
        rw [hrres, hlres', hmid']
        obtain ⟨f2, rfl⟩ : ∃ f2, fuel = f2 + 1 := ⟨fuel - 1, by omega⟩
        have hleafeq : buildBVHRec cexScene9.vertices cexScene9.faces (f2 + 1)
            (List.range 66) (k + 1) (k + 1 + 1) =
            (.mk (computeBox cexScene9.vertices cexScene9.faces (List.range 66)
              (k + 1) (k + 1 + 1)) none none (k + 1) (k + 1 + 1 - (k + 1)),
              List.range 66) := by
          simp only [buildBVHRec, if_pos (by omega : k + 1 + 1 - (k + 1) ≤ 2)]
        rw [hleafeq, cex_leaf_box (k + 1) (by omega) (by omega),
          show k + 1 + 1 - (k + 1) = 1 by omega]
      rw [heq, hbox', hlres', hrres']
      obtain ⟨j, rfl⟩ : ∃ j, k = j + 1 := ⟨k - 1, by omega⟩
      rfl

theorem traverse_hi_mono (ops : RealOps) (sc : SceneData) (r : Ray) :
    ∀ (fuel : ℕ) (stack : List BVHNode) (best : HitRec) (hi : ℕ),
    hi ≤ (traverseBVH ops sc r fuel stack best hi).2 := by
  intro fuel
  induction fuel with
  | zero => intro stack best hi; exact le_refl _
  | succ fuel ih =>
    intro stack best hi
    match stack with
    | [] => exact le_refl _
    | node :: rest =>
      rw [traverseBVH]
      by_cases h1 : node.box.intersect r best.t = false
      · rw [if_pos h1]
        exact ih rest best hi
      · rw [if_neg h1]
        by_cases h2 : node.triCount > 0
        · rw [if_pos h2]
          exact ih rest _ hi
        · rw [if_neg h2]
          exact le_trans (le_max_left hi _) (ih _ best _)

theorem cex_box_hits (k : ℕ) (t : ℚ) (ht : 1 < t) :
    (spineBox k).intersect cexRay9 t = true := by
  have hray : cexRay9 = ⟨⟨0, 0, 0⟩, ⟨1, 0, 0⟩, ⟨1, 1e8, 1e8⟩⟩ := by decide
  rw [hray]
  have hp1 : (1 : ℚ) ≤ 2 ^ k := one_le_pow₀ (by norm_num)
  unfold AABB.intersect spineBox
  dsimp only
  rw [Bool.and_eq_true, Bool.and_eq_true, decide_eq_true_eq, decide_eq_true_eq,
    decide_eq_true_eq]
  have e1 : ((1 : ℚ) - 0) * 1 = 1 := by norm_num
  have e2 : ((2 : ℚ) ^ k - 0) * 1 = 2 ^ k := by ring
  have e3 : ((-1 : ℚ) - 0) * 1e8 = -1e8 := by norm_num
  have e4 : ((1 : ℚ) - 0) * 1e8 = 1e8 := by norm_num
  rw [e1, e2, e3, e4]
  have m1 : Min.min (1 : ℚ) (2 ^ k) = 1 := min_eq_left hp1
  have m2 : Max.max (1 : ℚ) (2 ^ k) = 2 ^ k := max_eq_right hp1
  have m3 : Min.min (-1e8 : ℚ) 1e8 = -1e8 := min_eq_left (by norm_num)
  have m4 : Max.max (-1e8 : ℚ) 1e8 = 1e8 := max_eq_right (by norm_num)
  have m5 : Max.max (1 : ℚ) (-1e8) = 1 := max_eq_left (by norm_num)
  simp only [m1, m2, m3, m4, m5]
  refine ⟨⟨?_, ?_⟩, ?_⟩
  · exact le_min (le_min hp1 (by norm_num)) (by norm_num)
  · exact ht
  · exact lt_min (lt_min (by positivity) (by norm_num)) (by norm_num)

/-- Descending the spine piles one pending right sibling per level onto the
stack, so the high-water mark reaches the full spine length. -/
theorem cex_descend : ∀ (k : ℕ), 2 ≤ k →
    ∀ (sc : SceneData) (rest : List BVHNode) (hi fuel : ℕ), k ≤ fuel →
    rest.length + k ≤ (traverseBVH ratOps sc cexRay9 fuel (spineTree k :: rest) noHit hi).2 := by
  intro k
  induction k with
  | zero => intro h; omega
  | succ k ih =>
    intro hk2 sc rest hi fuel hfuel
    obtain ⟨f, rfl⟩ : ∃ f, fuel = f + 1 := ⟨fuel - 1, by omega⟩
    obtain ⟨j, rfl⟩ : ∃ j, k = j + 1 := ⟨k - 1, by omega⟩
    rw [traverseBVH]
    have hbt : (spineTree (j + 2)).box.intersect cexRay9 noHit.t = true := by
      show (spineBox (j + 2)).intersect cexRay9 (1e20 : ℚ) = true
      exact cex_box_hits (j + 2) 1e20 (by norm_num)
    rw [if_neg (by simp [hbt])]
    rw [if_neg (show ¬ (spineTree (j + 1 + 1)).triCount > 0 from by
      show ¬ (0 : ℕ) > 0
      omega)]
    show rest.length + (j + 2) ≤ (traverseBVH ratOps sc cexRay9 f
      (spineTree (j + 1) :: BVHNode.mk (leafBox (j + 2)) none none (j + 2) 1 :: rest)
      noHit (Max.max hi (rest.length + 1 + 1))).2
    by_cases hj : j = 0
    · subst hj
      refine le_trans ?_ (traverse_hi_mono ratOps sc cexRay9 f _ noHit _)
      exact le_trans (by omega) (le_max_right hi (rest.length + 1 + 1))
    · have hdes := ih (by omega) sc
        (BVHNode.mk (leafBox (j + 2)) none none (j + 2) 1 :: rest)
        (Max.max hi (rest.length + 1 + 1)) f (by omega)
      refine le_trans ?_ hdes
      simp only [List.length_cons]
      omega

theorem spine_size_ge : ∀ k : ℕ, k ≤ bvhSize (spineTree k)
  | 0 => by decide
  | 1 => by decide
  | k + 2 => by
    have hrec := spine_size_ge (k + 1)
    show k + 2 ≤ bvhSize (BVHNode.mk (spineBox (k + 2)) (some (spineTree (k + 1)))
      (some (BVHNode.mk (leafBox (k + 2)) none none (k + 2) 1)) 0 0)
    show k + 2 ≤ 1 + bvhSize (spineTree (k + 1)) +
      bvhSize (BVHNode.mk (leafBox (k + 2)) none none (k + 2) 1)
    have hleaf : bvhSize (BVHNode.mk (leafBox (k + 2)) none none (k + 2) 1) = 1 := rfl
    omega

/-- Counterexample to claim C9 as stated: on this 66-triangle scene the
traversal stack pointer reaches 65, so the write `stack[stackPtr++]`
hits index 64 of the 64-entry array — out of bounds. -/
theorem bvh_stack_overflow_counterexample :
    64 < getIntersectionMaxStack ratOps (some (buildBVH cexScene9)) cexRay9 := by
  have hn : cexScene9.faces.length = 66 := by
    show ((List.range 66).map (fun i => [3 * i, 3 * i + 1, 3 * i + 2])).length = 66
    simp
  have hne : cexScene9.faces.isEmpty = false := by
    show ((List.range 66).map (fun i => [3 * i, 3 * i + 1, 3 * i + 2])).isEmpty = false
    simp
  have hb : buildBVH cexScene9 =
      { cexScene9 with triIndices := List.range 66, bvhRoot := some (spineTree 65) } := by
    simp only [buildBVH, hne, Bool.false_eq_true, if_false, hn]
    rw [cex_build 65 (by omega) (by omega) 66 (by omega)]
  rw [hb]
  show 64 < (traverseBVH ratOps
    { cexScene9 with triIndices := List.range 66, bvhRoot := some (spineTree 65) }
    cexRay9 (bvhSize (spineTree 65) + 1) [spineTree 65] noHit 1).2
  have h9 := cex_descend 65 (by omega)
    { cexScene9 with triIndices := List.range 66, bvhRoot := some (spineTree 65) }
    [] 1 (bvhSize (spineTree 65) + 1)
    (by have := spine_size_ge 65; omega)
  exact lt_of_lt_of_le (by omega : 64 < ([] : List BVHNode).length + 65) h9


/-! ## C8: face triangulation in the scene-preparation step
(src/render/controls.cpp, keyboardDownCallback, 'P' branch).
The source pushes triangles onto scene.faces only for faces of size 3
(pass-through) and size 4 (split along the v0-v2 diagonal); any face of
5 or more vertices falls through both branches and emits nothing. -/

/-- Triangles the 'P'-key scene preparation emits for one editor face
(controls.cpp: `if (face.size() == 3) ... else if (face.size() == 4) ...`,
no other branch). -/
def triangulateFace (face : List ℕ) : List (List ℕ) :=
  if face.length = 3 then
    [[face.getD 0 0, face.getD 1 0, face.getD 2 0]]
  else if face.length = 4 then
    [[face.getD 0 0, face.getD 1 0, face.getD 2 0],
     [face.getD 0 0, face.getD 2 0, face.getD 3 0]]
  else []

/-- The whole triangulation pass over the editor's face list. -/
def triangulateFaces (faces : List (List ℕ)) : List (List ℕ) :=
  faces.flatMap triangulateFace

/-- Spec-transcribed fan triangulation: an N-gon becomes the N-2 triangles
(v0, vi, vi+1) for i = 1..N-2 (triangle pass-through and the quad split are
its N = 3 and N = 4 instances). Stated from the spec's words, to be compared
with `triangulateFace` from the source. -/
def specFanFace (face : List ℕ) : List (List ℕ) :=
  (List.range (face.length - 2)).map
    (fun i => [face.getD 0 0, face.getD (i + 1) 0, face.getD (i + 2) 0])

/-- Spec-transcribed triangulation of the whole face list. -/
def specFanFaces (faces : List (List ℕ)) : List (List ℕ) :=
  faces.flatMap specFanFace

/-- C8, amended: the scene-preparation step agrees with the spec's
triangulation scheme exactly on faces of 3 or 4 vertices — on a face list
all of whose faces are triangles or quads, the emitted triangle list is
the spec's fan triangulation. Faces of 5 or more vertices are silently
dropped (see the counterexample), so the hypothesis cannot be removed. -/
theorem triangulation_matches_fan_on_tris_and_quads (faces : List (List ℕ))
    (h : ∀ f ∈ faces, f.length = 3 ∨ f.length = 4) :
    triangulateFaces faces = specFanFaces faces := by
  induction faces with
  | nil => rfl
  | cons f fs ih =>
    have hf := h f (List.mem_cons_self f fs)
    have hfs : ∀ g ∈ fs, g.length = 3 ∨ g.length = 4 :=
      fun g hg => h g (List.mem_cons_of_mem f hg)
    show triangulateFace f ++ triangulateFaces fs
      = specFanFace f ++ specFanFaces fs
    rw [ih hfs]
    rcases hf with hf | hf
    · simp [triangulateFace, specFanFace, hf, List.range_succ]
    · simp [triangulateFace, specFanFace, hf, List.range_succ]

/-- Witness for the amended C8 theorem at a concrete triangle and quad. -/
theorem triangulation_matches_fan_witness :
    (∀ f ∈ [[0, 1, 2], [4, 5, 6, 7]], f.length = 3 ∨ f.length = 4) ∧
    triangulateFaces [[0, 1, 2], [4, 5, 6, 7]]
      = specFanFaces [[0, 1, 2], [4, 5, 6, 7]] :=
  ⟨by decide,
   triangulation_matches_fan_on_tris_and_quads [[0, 1, 2], [4, 5, 6, 7]]
     (by decide)⟩

/-- Counterexample to C8 as stated: a pentagon is an input face with
N = 5 ≥ 3 vertices, yet the scene-preparation step emits no triangle for
it at all — it is silently dropped — while the spec's fan triangulation
emits the 3 triangles (v0,v1,v2), (v0,v2,v3), (v0,v3,v4). -/
theorem triangulation_drops_pentagon :
    triangulateFaces [[0, 1, 2, 3, 4]] = [] ∧
    specFanFaces [[0, 1, 2, 3, 4]] = [[0, 1, 2], [0, 2, 3], [0, 3, 4]] :=
  ⟨rfl, by decide⟩


/-! ## C10: tone-mapping pipeline (PathTracer.h: aces, clamp, toInt).
The double arithmetic is modelled over the reals; the C++ `int(...)` cast
truncates toward zero, which on the nonnegative arguments produced here is
the floor. -/

/-- ACES filmic curve (PathTracer.h `aces`): (x(ax+b))/(x(cx+d)+e) with
a = 2.51, b = 0.03, c = 2.43, d = 0.59, e = 0.14. -/
noncomputable def aces (x : ℝ) : ℝ :=
  (x * (2.51 * x + 0.03)) / (x * (2.43 * x + 0.59) + 0.14)

/-- Saturation to [0,1] (PathTracer.h `clamp`). -/
noncomputable def clamp (x : ℝ) : ℝ := if x < 0 then 0 else if x > 1 then 1 else x

/-- The C++ `int(...)` conversion: truncation toward zero. -/
noncomputable def cppInt (x : ℝ) : ℤ := if x < 0 then -Int.floor (-x) else Int.floor x

/-- PathTracer.h `toInt`: exposure 0.6, aces, clamp, gamma 1/2.2, byte scale
with +0.5 rounding, int cast. -/
noncomputable def toInt (x : ℝ) : ℤ :=
  cppInt ((clamp (aces (x * 0.6))) ^ (1 / 2.2 : ℝ) * 255.0 + 0.5)

lemma aces_den_pos (t : ℝ) (h : 0 ≤ t) : 0 < t * (2.43 * t + 0.59) + 0.14 := by
  nlinarith [sq_nonneg t]

lemma aces_mono (x y : ℝ) (hx : 0 ≤ x) (hxy : x ≤ y) : aces x ≤ aces y := by
  have hy : 0 ≤ y := le_trans hx hxy
  have hdx := aces_den_pos x hx
  have hdy := aces_den_pos y hy
  rw [aces, aces, div_le_div_iff hdx hdy]
  nlinarith [mul_nonneg (mul_nonneg (sub_nonneg.2 hxy) hx) hy,
    mul_nonneg (sub_nonneg.2 hxy) hx, mul_nonneg (sub_nonneg.2 hxy) hy,
    sub_nonneg.2 hxy]

lemma clamp_nonneg (t : ℝ) : 0 ≤ clamp t := by
  rw [clamp]; split_ifs <;> (try simp_all only [not_lt]) <;> linarith

lemma clamp_le_one (t : ℝ) : clamp t ≤ 1 := by
  rw [clamp]; split_ifs <;> (try simp_all only [not_lt]) <;> linarith

lemma clamp_mono (x y : ℝ) (hxy : x ≤ y) : clamp x ≤ clamp y := by
  rw [clamp, clamp]
  split_ifs <;> (try simp_all only [not_lt]) <;> linarith

/-- C10: the tone map sends 0 to 0, is monotone on nonnegative reals, and
lands in the byte range [0, 255]. -/
theorem toInt_tonemap (x y : ℝ) (hx : 0 ≤ x) (hxy : x ≤ y) :
    toInt 0 = 0 ∧ toInt x ≤ toInt y ∧ 0 ≤ toInt x ∧ toInt x ≤ 255 := by
  have he : (0 : ℝ) ≤ 1 / 2.2 := by norm_num
  have base : ∀ t : ℝ,
      0.5 ≤ (clamp (aces (t * 0.6))) ^ (1 / 2.2 : ℝ) * 255.0 + 0.5 ∧
      (clamp (aces (t * 0.6))) ^ (1 / 2.2 : ℝ) * 255.0 + 0.5 ≤ 255.5 := by
    intro t
    have h0 := Real.rpow_nonneg (clamp_nonneg (aces (t * 0.6))) (1 / 2.2)
    have h1 := Real.rpow_le_one (clamp_nonneg (aces (t * 0.6)))
      (clamp_le_one (aces (t * 0.6))) he
    constructor <;> nlinarith
  have hmon : ∀ a b : ℝ, 0 ≤ a → a ≤ b → toInt a ≤ toInt b := by
    intro a b ha hab
    have hr : (clamp (aces (a * 0.6))) ^ (1 / 2.2 : ℝ)
        ≤ (clamp (aces (b * 0.6))) ^ (1 / 2.2 : ℝ) :=
      Real.rpow_le_rpow (clamp_nonneg _)
        (clamp_mono _ _ (aces_mono (a * 0.6) (b * 0.6) (by linarith) (by linarith)))
        he
    rw [toInt, toInt, cppInt, cppInt,
      if_neg (by have := (base a).1; push_neg; linarith),
      if_neg (by have := (base b).1; push_neg; linarith)]
    exact Int.floor_le_floor (by linarith)
  refine ⟨?_, hmon x y hx hxy, ?_, ?_⟩
  · have ha : aces 0 = 0 := by rw [aces]; norm_num
    have hc : clamp 0 = 0 := by rw [clamp]; norm_num
    rw [toInt, show (0 : ℝ) * 0.6 = 0 by norm_num, ha, hc,
      Real.zero_rpow (by norm_num : (1 / 2.2 : ℝ) ≠ 0)]
    rw [show (0 : ℝ) * 255.0 + 0.5 = 0.5 by norm_num]
    rw [cppInt, if_neg (by norm_num)]
    exact Int.floor_eq_zero_iff.2 (Set.mem_Ico.2 (by constructor <;> norm_num))
  · rw [toInt, cppInt, if_neg (by have := (base x).1; push_neg; linarith)]
    exact Int.floor_nonneg.2 (by have := (base x).1; linarith)
  · rw [toInt, cppInt, if_neg (by have := (base x).1; push_neg; linarith)]
    have h256 : (clamp (aces (x * 0.6))) ^ (1 / 2.2 : ℝ) * 255.0 + 0.5
        < ((256 : ℤ) : ℝ) := by
      have := (base x).2
      push_cast
      linarith
    exact Int.lt_add_one_iff.1 (Int.floor_lt.2 h256)

/-- Witness for C10 at x = 0, y = 1. -/
theorem toInt_tonemap_witness :
    (0 : ℝ) ≤ 0 ∧ (0 : ℝ) ≤ 1 ∧
    (toInt 0 = 0 ∧ toInt 0 ≤ toInt 1 ∧ 0 ≤ toInt 0 ∧ toInt 0 ≤ 255) :=
  ⟨le_refl 0, zero_le_one, toInt_tonemap 0 1 (le_refl 0) zero_le_one⟩


/-! ## C1: `getIntersection` as a nearest-hit query.
Statement-level candidate predicates transcribe the acceptance conditions
of the three object tests of `getIntersection` (mesh leaf loop, guarded
ground plane, guarded light sphere), each below the `1e20` initialisation
of the running best distance. -/

/-- Distance the ray-triangle test reports against face `j` of the scene
(the value the leaf loop of `getIntersection` compares and stores). -/
def triDist (sc : SceneData) (r : Ray) (j : ℕ) : ℚ :=
  (intersectTriangle r (vtx sc.vertices (fidx (faceAt sc.faces j) 0))
    (vtx sc.vertices (fidx (faceAt sc.faces j) 1))
    (vtx sc.vertices (fidx (faceAt sc.faces j) 2))).1

/-- Face `j` is a mesh hit candidate: the ray-triangle test accepts it
(positive reported distance) below the `1e20` cap. -/
def meshCand (sc : SceneData) (r : Ray) (j : ℕ) : Prop :=
  j < sc.faces.length ∧ 0 < triDist sc r j ∧ triDist sc r j < 1e20

/-- The ground-plane candidate distance `t_plane` of `getIntersection`. -/
def planeT (r : Ray) : ℚ := (-1.2 - r.o.y) * r.inv_d.y

/-- The guarded ground-plane test of `getIntersection` yields a candidate:
`|d.y| > 1e-6`, `t_plane > 1e-4`, below the `1e20` cap. -/
def groundCand (r : Ray) : Prop :=
  |r.d.y| > 1e-6 ∧ planeT r > 1e-4 ∧ planeT r < 1e20

/-- Discriminant of the analytic light-sphere test of `getIntersection`. -/
def lightDet (r : Ray) : ℚ :=
  let op := (⟨0, 0.6, 0⟩ : Vec3) - r.o
  let b := op.dot r.d
  b * b - op.dot op + 0.01

/-- The near-root distance `t_luz` the light test computes. -/
def lightT (ops : RealOps) (r : Ray) : ℚ :=
  ((⟨0, 0.6, 0⟩ : Vec3) - r.o).dot r.d - ops.sqrt (lightDet r)

/-- The guarded light-sphere test of `getIntersection` yields a candidate:
positive discriminant, `t_luz > 1e-4`, below the `1e20` cap. -/
def lightCand (ops : RealOps) (r : Ray) : Prop :=
  lightDet r > 0 ∧ lightT ops r > 1e-4 ∧ lightT ops r < 1e20

/-- One-triangle scene for the C1 counterexample, BVH built by `buildBVH`. -/
def cexScene1 : SceneData :=
  buildBVH
    { vertices := [⟨10, 0.3, 0⟩, ⟨10, -1, -1⟩, ⟨10, -1, 1⟩],
      faces := [[0, 1, 2]], triIndices := [], textures := [],
      faceTextureID := [], faceUVs := [], bvhRoot := none }

/-- Ray for the C1 counterexample: origin on the top edge's plane, direction
almost but not exactly parallel to it (`d.y = -1e-9`). -/
def cexRay1 : Ray := mkRay ⟨0, 0.3, 0⟩ ⟨1, -1e-9, 0⟩

/-- Counterexample to claim C1 as stated: in this buildBVH-built scene the
mesh triangle intersects the ray per the ray-triangle test (at distance 10),
yet `getIntersection` returns false.  The `Ray` constructor clamps the tiny
`d.y = -1e-9` to `1e-8` before taking the reciprocal, so the slab test walks
the y-slab of the root box with the wrong sign and culls the node that holds
the intersected triangle; ground and light tests also reject, so no hit is
reported at all. -/
theorem getIntersection_misses_mesh_hit :
    meshCand cexScene1 cexRay1 0 ∧
    (getIntersection ratOps (some cexScene1) cexRay1).hit = false := by
  refine ⟨⟨?_, ?_, ?_⟩, ?_⟩ <;> decide


theorem tryTriangle_t_le (ops : RealOps) (sc : SceneData) (r : Ray)
    (best : HitRec) (i : ℕ) : (tryTriangle ops sc r best i).t ≤ best.t := by
  unfold tryTriangle
  dsimp only
  split_ifs with h
  · exact le_of_lt h.2
  · exact le_refl _

/-- One leaf-loop step either keeps the running best or replaces it by a
strictly closer, positive mesh hit on the face `triIndices[i]`. -/
theorem tryTriangle_char (ops : RealOps) (sc : SceneData) (r : Ray)
    (best : HitRec) (i : ℕ) :
    tryTriangle ops sc r best i = best ∨
    ((tryTriangle ops sc r best i).t = triDist sc r (sc.triIndices.getD i 0) ∧
     0 < (tryTriangle ops sc r best i).t ∧
     (tryTriangle ops sc r best i).t < best.t ∧
     (tryTriangle ops sc r best i).hit = true ∧
     (tryTriangle ops sc r best i).id = 1) := by
  unfold tryTriangle triDist
  dsimp only
  split_ifs with h
  · exact Or.inr ⟨rfl, h.1, h.2, rfl, rfl⟩
  · exact Or.inl rfl

/-- After the leaf-loop step at position `i`, the running best distance is
at most the (accepted) distance of `triIndices[i]`. -/
theorem tryTriangle_le_self (ops : RealOps) (sc : SceneData) (r : Ray)
    (best : HitRec) (i : ℕ) (h : 0 < triDist sc r (sc.triIndices.getD i 0)) :
    (tryTriangle ops sc r best i).t ≤ triDist sc r (sc.triIndices.getD i 0) := by
  unfold tryTriangle triDist at *
  dsimp only
  split_ifs with hc
  · exact le_refl _
  · rw [not_and_or, not_lt, not_lt] at hc
    rcases hc with hc | hc
    · exact absurd h (by simpa using hc)
    · exact hc

theorem foldTry_t_le (ops : RealOps) (sc : SceneData) (r : Ray) :
    ∀ (L : List ℕ) (best : HitRec),
    (L.foldl (tryTriangle ops sc r) best).t ≤ best.t := by
  intro L
  induction L with
  | nil => intro best; exact le_refl _
  | cons i L ih =>
    intro best
    rw [List.foldl_cons]
    exact le_trans (ih _) (tryTriangle_t_le ops sc r best i)

/-- The leaf loop's fold either returns its initial best unchanged or a
strictly improved positive mesh hit on one of the listed positions. -/
theorem foldTry_char (ops : RealOps) (sc : SceneData) (r : Ray) :
    ∀ (L : List ℕ) (best : HitRec),
    L.foldl (tryTriangle ops sc r) best = best ∨
    ((L.foldl (tryTriangle ops sc r) best).t < best.t ∧
     (L.foldl (tryTriangle ops sc r) best).hit = true ∧
     (L.foldl (tryTriangle ops sc r) best).id = 1 ∧
     ∃ i ∈ L, (L.foldl (tryTriangle ops sc r) best).t
       = triDist sc r (sc.triIndices.getD i 0) ∧
       0 < triDist sc r (sc.triIndices.getD i 0)) := by
  intro L
  induction L with
  | nil => intro best; exact Or.inl rfl
  | cons i L ih =>
    intro best
    rw [List.foldl_cons]
    rcases tryTriangle_char ops sc r best i with heq | ⟨h1, h2, h3, h4, h5⟩
    · rw [heq]
      rcases ih best with heq2 | ⟨g1, g2, g3, j, hj, g4, g5⟩
      · exact Or.inl heq2
      · exact Or.inr ⟨g1, g2, g3, j, List.mem_cons_of_mem i hj, g4, g5⟩
    · rcases ih (tryTriangle ops sc r best i) with heq2 | ⟨g1, g2, g3, j, hj, g4, g5⟩
      · rw [heq2]
        exact Or.inr ⟨h3, h4, h5, i, List.mem_cons_self i L, h1, h1 ▸ h2⟩
      · exact Or.inr ⟨lt_trans g1 h3, g2, g3, j, List.mem_cons_of_mem i hj, g4, g5⟩

/-- If the leaf loop passes over a position whose triangle the ray-triangle
test accepts, the fold's final best distance is at most that distance. -/
theorem foldTry_min (ops : RealOps) (sc : SceneData) (r : Ray) :
    ∀ (L : List ℕ) (best : HitRec) (i : ℕ), i ∈ L →
    0 < triDist sc r (sc.triIndices.getD i 0) →
    (L.foldl (tryTriangle ops sc r) best).t ≤ triDist sc r (sc.triIndices.getD i 0) := by
  intro L
  induction L with
  | nil => intro best i hm; exact absurd hm (List.not_mem_nil i)
  | cons j L ih =>
    intro best i hm hpos
    rw [List.foldl_cons]
    rcases List.mem_cons.mp hm with heq | hm2
    · subst heq
      exact le_trans (foldTry_t_le ops sc r L _) (tryTriangle_le_self ops sc r best i hpos)
    · exact ih _ i hm2 hpos

/-- Total node count of a traversal stack (the fuel measure). -/
def sizeSum (stack : List BVHNode) : ℕ := (stack.map bvhSize).sum

theorem bvhSize_pos : ∀ nd : BVHNode, 0 < bvhSize nd
  | .mk _ (some L) (some R) _ _ => by rw [bvhSize]; omega
  | .mk _ (some L) none _ _ => by rw [bvhSize]; omega
  | .mk _ none (some R) _ _ => by rw [bvhSize]; omega
  | .mk _ none none _ _ => by rw [bvhSize]; omega

/-- The running best distance never increases during the traversal. -/
theorem traverse_t_le (ops : RealOps) (sc : SceneData) (r : Ray) :
    ∀ (fuel : ℕ) (stack : List BVHNode) (best : HitRec) (hi : ℕ),
    (traverseBVH ops sc r fuel stack best hi).1.t ≤ best.t := by
  intro fuel
  induction fuel with
  | zero => intro stack best hi; exact le_refl _
  | succ fuel ih =>
    intro stack best hi
    match stack with
    | [] => exact le_refl _
    | node :: rest =>
      rw [traverseBVH]
      by_cases h1 : node.box.intersect r best.t = false
      · rw [if_pos h1]
        exact ih rest best hi
      · rw [if_neg h1]
        by_cases h2 : node.triCount > 0
        · rw [if_pos h2]
          exact le_trans (ih rest _ hi)
            (foldTry_t_le ops sc r (List.range' node.firstTriIndex node.triCount) best)
        · rw [if_neg h2]
          exact ih _ best _


/-- Soundness of the traversal: starting from `best`, the mesh walk either
returns `best` unchanged or a strictly improved, positive mesh hit on an
in-range face of the scene. -/
theorem traverse_sound (ops : RealOps) (sc : SceneData) (r : Ray)
    (hidx : ∀ p, p < sc.triIndices.length → sc.triIndices.getD p 0 < sc.faces.length) :
    ∀ (fuel : ℕ) (stack : List BVHNode) (best : HitRec) (hi : ℕ),
    (∀ nd ∈ stack, ∃ l rr, TreeOK sc.vertices sc.faces sc.triIndices nd l rr ∧
      rr ≤ sc.triIndices.length) →
    (traverseBVH ops sc r fuel stack best hi).1 = best ∨
    ((traverseBVH ops sc r fuel stack best hi).1.t < best.t ∧
     (traverseBVH ops sc r fuel stack best hi).1.hit = true ∧
     (traverseBVH ops sc r fuel stack best hi).1.id = 1 ∧
     ∃ j, j < sc.faces.length ∧
       (traverseBVH ops sc r fuel stack best hi).1.t = triDist sc r j ∧
       0 < triDist sc r j) := by
  intro fuel
  induction fuel with
  | zero => intro stack best hi _; exact Or.inl rfl
  | succ fuel ih =>
    intro stack best hi hstk
    match stack with
    | [] => exact Or.inl rfl
    | node :: rest =>
      have hrest : ∀ nd ∈ rest, ∃ l rr,
          TreeOK sc.vertices sc.faces sc.triIndices nd l rr ∧
          rr ≤ sc.triIndices.length :=
        fun nd hm => hstk nd (List.mem_cons_of_mem node hm)
      obtain ⟨l, rr, hok, hrr⟩ := hstk node (List.mem_cons_self node rest)
      rw [traverseBVH]
      by_cases h1 : node.box.intersect r best.t = false
      · rw [if_pos h1]
        exact ih rest best hi hrest
      · rw [if_neg h1]
        by_cases h2 : node.triCount > 0
        · rw [if_pos h2]
          obtain ⟨box, ol, orr, f, c⟩ := node
          match ol, orr with
          | some L, some R =>
            obtain ⟨hc, _⟩ := hok
            exact absurd h2 (by simp [BVHNode.triCount, hc])
          | some L, none => exact absurd hok (fun h => h)
          | none, some R => exact absurd hok (fun h => h)
          | none, none =>
            obtain ⟨hf, hc, hlr, hboxall⟩ := hok
            have hfold := foldTry_char ops sc r
              (List.range' (BVHNode.mk box none none f c).firstTriIndex
                (BVHNode.mk box none none f c).triCount) best
            rcases ih rest _ hi hrest with heq | ⟨g1, g2, g3, j, hj1, hj2, hj3⟩
            · rw [heq]
              rcases hfold with heq2 | ⟨f1, f2, f3, i, hi1, hi2, hi3⟩
              · exact Or.inl heq2
              · refine Or.inr ⟨f1, f2, f3, sc.triIndices.getD i 0, ?_, hi2, hi3⟩
                have hmem := List.mem_range'_1.mp hi1
                simp only [BVHNode.firstTriIndex, BVHNode.triCount] at hmem
                exact hidx i (by omega)
            · exact Or.inr ⟨lt_of_lt_of_le g1
                (foldTry_t_le ops sc r _ best), g2, g3, j, hj1, hj2, hj3⟩
        · rw [if_neg h2]
          obtain ⟨box, ol, orr, f, c⟩ := node
          match ol, orr with
          | some L, some R =>
            obtain ⟨hc, m, hm1, hm2, hL, hR, hbox⟩ := hok
            refine ih (L :: R :: rest) best _ ?_
            intro nd hm
            rcases List.mem_cons.mp hm with hnd | hm2
            · exact ⟨l, m, hnd ▸ hL, by omega⟩
            rcases List.mem_cons.mp hm2 with hnd | hm3
            · exact ⟨m, rr, hnd ▸ hR, hrr⟩
            · exact hrest nd hm3
          | some L, none => exact absurd hok (fun h => h)
          | none, some R => exact absurd hok (fun h => h)
          | none, none =>
            obtain ⟨hf, hc, hlr, _⟩ := hok
            exact absurd (by simp [BVHNode.triCount]; omega : (BVHNode.mk box none none f c).triCount > 0) h2


/-! Intermediate Möller–Trumbore quantities of `intersectTriangle` (its
`a`, `outU`, `outV`, `t` values on the accepting path), named so the
geometric facts behind the slab test's conservativeness can be stated. -/

/-- The determinant `a = e1 · (d × e2)` of `intersectTriangle`. -/
def mtA (r : Ray) (v0 v1 v2 : Vec3) : ℚ := (v1 - v0).dot (r.d.cross (v2 - v0))

/-- The barycentric `u` of `intersectTriangle`. -/
def mtU (r : Ray) (v0 v1 v2 : Vec3) : ℚ :=
  1 / mtA r v0 v1 v2 * ((r.o - v0).dot (r.d.cross (v2 - v0)))

/-- The barycentric `v` of `intersectTriangle`. -/
def mtV (r : Ray) (v0 v1 v2 : Vec3) : ℚ :=
  1 / mtA r v0 v1 v2 * (r.d.dot ((r.o - v0).cross (v1 - v0)))

/-- The distance `t` of `intersectTriangle`. -/
def mtT (r : Ray) (v0 v1 v2 : Vec3) : ℚ :=
  1 / mtA r v0 v1 v2 * ((v2 - v0).dot ((r.o - v0).cross (v1 - v0)))

/-- A positive return of `intersectTriangle` means every guard of the
ladder passed: the returned distance is `mtT`, the determinant is nonzero,
and the barycentric coordinates certify the hit point lies in the
triangle. -/
theorem intersectTriangle_accept (r : Ray) (v0 v1 v2 : Vec3) (t : ℚ)
    (ht : (intersectTriangle r v0 v1 v2).1 = t) (h0 : 0 < t) :
    t = mtT r v0 v1 v2 ∧ mtA r v0 v1 v2 ≠ 0 ∧
    0 ≤ mtU r v0 v1 v2 ∧ mtU r v0 v1 v2 ≤ 1 ∧
    0 ≤ mtV r v0 v1 v2 ∧ mtU r v0 v1 v2 + mtV r v0 v1 v2 ≤ 1 := by
  unfold intersectTriangle at ht
  unfold mtU mtV mtT
  unfold mtA
  dsimp only at ht
  split_ifs at ht with g1 g2 g3 g4
  · exact absurd h0 (by rw [← ht]; exact lt_irrefl 0)
  · exact absurd h0 (by rw [← ht]; exact lt_irrefl 0)
  · exact absurd h0 (by rw [← ht]; exact lt_irrefl 0)
  · push_neg at g2 g3
    refine ⟨by rw [← ht], ?_, g2.1, g2.2, g3.1, g3.2⟩
    intro hA0
    rw [hA0] at g1
    exact g1 ⟨by norm_num, by norm_num⟩
  · exact absurd h0 (by rw [← ht]; exact lt_irrefl 0)

/-- Cramer's identity for the Möller–Trumbore solution: the point at
parameter `mtT` along the ray is the barycentric combination of the three
vertices with weights `(1 - u - v, u, v)`. -/
theorem mt_cramer (r : Ray) (v0 v1 v2 : Vec3) (hA : mtA r v0 v1 v2 ≠ 0) :
    r.o.x + mtT r v0 v1 v2 * r.d.x
      = (1 - mtU r v0 v1 v2 - mtV r v0 v1 v2) * v0.x
        + mtU r v0 v1 v2 * v1.x + mtV r v0 v1 v2 * v2.x ∧
    r.o.y + mtT r v0 v1 v2 * r.d.y
      = (1 - mtU r v0 v1 v2 - mtV r v0 v1 v2) * v0.y
        + mtU r v0 v1 v2 * v1.y + mtV r v0 v1 v2 * v2.y ∧
    r.o.z + mtT r v0 v1 v2 * r.d.z
      = (1 - mtU r v0 v1 v2 - mtV r v0 v1 v2) * v0.z
        + mtU r v0 v1 v2 * v1.z + mtV r v0 v1 v2 * v2.z := by
  unfold mtT mtU mtV at *
  unfold mtA at *
  simp only [Vec3.sub_def, Vec3.dot, Vec3.cross] at *
  refine ⟨?_, ?_, ?_⟩ <;> (field_simp; ring)

set_option maxHeartbeats 1600000 in
/-- A point the ray-triangle test accepts lies inside any box that contains
the triangle's three vertices (convexity of the box). -/
theorem hit_point_in_box (r : Ray) (v0 v1 v2 : Vec3) (b : AABB) (t : ℚ)
    (ht : (intersectTriangle r v0 v1 v2).1 = t) (h0 : 0 < t)
    (hb0 : inBox b v0) (hb1 : inBox b v1) (hb2 : inBox b v2) :
    inBox b ⟨r.o.x + t * r.d.x, r.o.y + t * r.d.y, r.o.z + t * r.d.z⟩ := by
  obtain ⟨hteq, hA, hu0, hu1, hv0, huv⟩ := intersectTriangle_accept r v0 v1 v2 t ht h0
  obtain ⟨hcx, hcy, hcz⟩ := mt_cramer r v0 v1 v2 hA
  clear ht hA
  obtain ⟨a1, a2, a3, a4, a5, a6⟩ := hb0
  obtain ⟨b1, b2, b3, b4, b5, b6⟩ := hb1
  obtain ⟨c1, c2, c3, c4, c5, c6⟩ := hb2
  have hw : 0 ≤ 1 - mtU r v0 v1 v2 - mtV r v0 v1 v2 := by linarith
  subst hteq
  unfold inBox
  dsimp only
  refine ⟨?_, ?_, ?_, ?_, ?_, ?_⟩
  · rw [hcx]
    nlinarith [mul_nonneg hw (sub_nonneg.2 a1), mul_nonneg hu0 (sub_nonneg.2 b1),
      mul_nonneg hv0 (sub_nonneg.2 c1)]
  · rw [hcy]
    nlinarith [mul_nonneg hw (sub_nonneg.2 a2), mul_nonneg hu0 (sub_nonneg.2 b2),
      mul_nonneg hv0 (sub_nonneg.2 c2)]
  · rw [hcz]
    nlinarith [mul_nonneg hw (sub_nonneg.2 a3), mul_nonneg hu0 (sub_nonneg.2 b3),
      mul_nonneg hv0 (sub_nonneg.2 c3)]
  · rw [hcx]
    nlinarith [mul_nonneg hw (sub_nonneg.2 a4), mul_nonneg hu0 (sub_nonneg.2 b4),
      mul_nonneg hv0 (sub_nonneg.2 c4)]
  · rw [hcy]
    nlinarith [mul_nonneg hw (sub_nonneg.2 a5), mul_nonneg hu0 (sub_nonneg.2 b5),
      mul_nonneg hv0 (sub_nonneg.2 c5)]
  · rw [hcz]
    nlinarith [mul_nonneg hw (sub_nonneg.2 a6), mul_nonneg hu0 (sub_nonneg.2 b6),
      mul_nonneg hv0 (sub_nonneg.2 c6)]

/-- One axis of the slab test with the exact reciprocal: a parameter whose
point lies between the slab planes lies between the two slab distances. -/
theorem slab_axis (lo hi oc dc t : ℚ) (hd : dc ≠ 0)
    (hl : lo ≤ oc + t * dc) (hh : oc + t * dc ≤ hi) :
    Min.min ((lo - oc) * (1 / dc)) ((hi - oc) * (1 / dc)) ≤ t ∧
    t ≤ Max.max ((lo - oc) * (1 / dc)) ((hi - oc) * (1 / dc)) := by
  rcases hd.lt_or_lt with hneg | hpos
  · have h1 : (hi - oc) * (1 / dc) ≤ t := by
      rw [mul_one_div, div_le_iff_of_neg hneg]
      linarith
    have h2 : t ≤ (lo - oc) * (1 / dc) := by
      rw [mul_one_div, le_div_iff_of_neg hneg]
      linarith
    exact ⟨le_trans (min_le_right _ _) h1, le_trans h2 (le_max_left _ _)⟩
  · have h1 : (lo - oc) * (1 / dc) ≤ t := by
      rw [mul_one_div, div_le_iff hpos]
      linarith
    have h2 : t ≤ (hi - oc) * (1 / dc) := by
      rw [mul_one_div, le_div_iff hpos]
      linarith
    exact ⟨le_trans (min_le_left _ _) h1, le_trans h2 (le_max_right _ _)⟩

/-- Conservativeness of the slab test for rays whose direction components
all exceed the `1e-8` clamp of the `Ray` constructor: the test accepts any
box containing a point of the ray at a parameter in `(0, t_max)`. -/
theorem slab_pass (b : AABB) (o d : Vec3) (t t_max : ℚ)
    (hdx : 1e-8 < |d.x|) (hdy : 1e-8 < |d.y|) (hdz : 1e-8 < |d.z|)
    (hin : inBox b ⟨o.x + t * d.x, o.y + t * d.y, o.z + t * d.z⟩)
    (h0 : 0 < t) (hlt : t < t_max) :
    b.intersect (mkRay o d) t_max = true := by
  obtain ⟨i1, i2, i3, i4, i5, i6⟩ := hin
  have hx0 : d.x ≠ 0 := fun h => by rw [h] at hdx; norm_num at hdx
  have hy0 : d.y ≠ 0 := fun h => by rw [h] at hdy; norm_num at hdy
  have hz0 : d.z ≠ 0 := fun h => by rw [h] at hdz; norm_num at hdz
  have hax := slab_axis b.min.x b.max.x o.x d.x t hx0 i1 i4
  have hay := slab_axis b.min.y b.max.y o.y d.y t hy0 i2 i5
  have haz := slab_axis b.min.z b.max.z o.z d.z t hz0 i3 i6
  unfold AABB.intersect mkRay
  dsimp only
  rw [if_pos hdx, if_pos hdy, if_pos hdz]
  rw [Bool.and_eq_true, Bool.and_eq_true, decide_eq_true_eq, decide_eq_true_eq,
    decide_eq_true_eq]
  have hmin : Max.max (Max.max (Min.min ((b.min.x - o.x) * (1 / d.x))
      ((b.max.x - o.x) * (1 / d.x))) (Min.min ((b.min.y - o.y) * (1 / d.y))
      ((b.max.y - o.y) * (1 / d.y)))) (Min.min ((b.min.z - o.z) * (1 / d.z))
      ((b.max.z - o.z) * (1 / d.z))) ≤ t :=
    max_le (max_le hax.1 hay.1) haz.1
  have hmax : t ≤ Min.min (Min.min (Max.max ((b.min.x - o.x) * (1 / d.x))
      ((b.max.x - o.x) * (1 / d.x))) (Max.max ((b.min.y - o.y) * (1 / d.y))
      ((b.max.y - o.y) * (1 / d.y)))) (Max.max ((b.min.z - o.z) * (1 / d.z))
      ((b.max.z - o.z) * (1 / d.z))) :=
    le_min (le_min hax.2 hay.2) haz.2
  exact ⟨⟨le_trans hmin hmax, lt_of_le_of_lt hmin hlt⟩, lt_of_lt_of_le h0 hmax⟩


theorem bvhSize_le_sizeSum (stack : List BVHNode) (nd : BVHNode)
    (hm : nd ∈ stack) : bvhSize nd ≤ sizeSum stack :=
  List.single_le_sum (fun _ _ => Nat.zero_le _) _ (List.mem_map_of_mem bvhSize hm)

/-- Minimality of the traversal for rays whose direction components exceed
the `1e-8` clamp: if a stack node covers a position of `triIndices` whose
triangle the ray-triangle test accepts, the traversal's final best distance
is at most that triangle's distance.  (The slab test is conservative for
such rays, so the covering subtree is never culled while it still
matters.) -/
theorem traverse_min (ops : RealOps) (sc : SceneData) (o d : Vec3)
    (hdx : 1e-8 < |d.x|) (hdy : 1e-8 < |d.y|) (hdz : 1e-8 < |d.z|) :
    ∀ (fuel : ℕ) (stack : List BVHNode) (best : HitRec) (hi : ℕ)
      (nd : BVHNode) (l rr p : ℕ),
    sizeSum stack ≤ fuel →
    nd ∈ stack →
    TreeOK sc.vertices sc.faces sc.triIndices nd l rr →
    rr ≤ sc.triIndices.length →
    l ≤ p → p < rr →
    0 < triDist sc (mkRay o d) (sc.triIndices.getD p 0) →
    (traverseBVH ops sc (mkRay o d) fuel stack best hi).1.t
      ≤ triDist sc (mkRay o d) (sc.triIndices.getD p 0) := by
  intro fuel
  induction fuel with
  | zero =>
    intro stack best hi nd l rr p hfuel hm _ _ _ _ _
    have h1 := bvhSize_le_sizeSum stack nd hm
    have h2 := bvhSize_pos nd
    omega
  | succ fuel ih =>
    intro stack best hi nd l rr p hfuel hm hok hrr hlp hpr hpos
    match stack with
    | [] => exact absurd hm (List.not_mem_nil nd)
    | node :: rest =>
      have hsz : sizeSum (node :: rest) = bvhSize node + sizeSum rest := by
        simp [sizeSum]
      rcases List.mem_cons.mp hm with hnd | hr
      · -- the covering node is the popped node
        subst hnd
        by_cases hcl : triDist sc (mkRay o d) (sc.triIndices.getD p 0) < best.t
        · -- the candidate still beats the running best: the box cannot be culled
          obtain ⟨box, ol, orr, f, c⟩ := nd
          have hboxall : BoxAll sc.vertices sc.faces box sc.triIndices l rr := by
            match ol, orr with
            | some L, some R => exact hok.2.choose_spec.2.2.2.2
            | some L, none => exact absurd hok (fun h => h)
            | none, some R => exact absurd hok (fun h => h)
            | none, none => exact hok.2.2.2
          have htri := hboxall (sc.triIndices.getD p 0) (seg_getD_mem _ l rr p hlp hpr hrr)
          have hhit := hit_point_in_box (mkRay o d)
            (vtx sc.vertices (fidx (faceAt sc.faces (sc.triIndices.getD p 0)) 0))
            (vtx sc.vertices (fidx (faceAt sc.faces (sc.triIndices.getD p 0)) 1))
            (vtx sc.vertices (fidx (faceAt sc.faces (sc.triIndices.getD p 0)) 2))
            box (triDist sc (mkRay o d) (sc.triIndices.getD p 0)) rfl hpos
            htri.1 htri.2.1 htri.2.2
          have hm0 : (mkRay o d).o = o := rfl
          have hm1 : (mkRay o d).d = d := rfl
          rw [hm0, hm1] at hhit
          have hpass := slab_pass box o d
            (triDist sc (mkRay o d) (sc.triIndices.getD p 0)) best.t
            hdx hdy hdz hhit hpos hcl
          rw [traverseBVH]
          rw [if_neg (by
            show ¬ (BVHNode.mk box ol orr f c).box.intersect (mkRay o d) best.t = false
            simp only [BVHNode.box]
            rw [hpass]
            exact fun h => Bool.noConfusion h)]
          match ol, orr with
          | none, none =>
            obtain ⟨hf, hc, hlr, _⟩ := hok
            rw [if_pos (by simp only [BVHNode.triCount]; omega)]
            refine le_trans (traverse_t_le ops sc (mkRay o d) fuel rest _ hi) ?_
            refine foldTry_min ops sc (mkRay o d) _ best p ?_ hpos
            simp only [BVHNode.firstTriIndex, BVHNode.triCount]
            rw [List.mem_range'_1]
            omega
          | some L, some R =>
            obtain ⟨hc, m, hm1', hm2', hL, hR, _⟩ := hok
            rw [if_neg (by simp only [BVHNode.triCount]; omega)]
            simp only [BVHNode.left, BVHNode.right]
            have hszLR : bvhSize (BVHNode.mk box (some L) (some R) f c)
                = 1 + bvhSize L + bvhSize R := rfl
            by_cases hpm : p < m
            · exact ih (L :: R :: rest) best _ L l m p
                (by simp [sizeSum] at *; omega) (List.mem_cons_self L _) hL
                (by omega) hlp hpm hpos
            · exact ih (L :: R :: rest) best _ R m rr p
                (by simp [sizeSum] at *; omega)
                (List.mem_cons_of_mem L (List.mem_cons_self R _)) hR hrr
                (by omega) hpr hpos
          | some L, none => exact absurd hok (fun h => h)
          | none, some R => exact absurd hok (fun h => h)
        · -- the candidate no longer beats the running best: monotonicity suffices
          push_neg at hcl
          exact le_trans (traverse_t_le ops sc (mkRay o d) (fuel + 1) (nd :: rest) best hi) hcl
      · -- the covering node sits deeper in the stack
        rw [traverseBVH]
        by_cases h1 : node.box.intersect (mkRay o d) best.t = false
        · rw [if_pos h1]
          exact ih rest best hi nd l rr p
            (by have := bvhSize_pos node; omega) hr hok hrr hlp hpr hpos
        · rw [if_neg h1]
          by_cases h2 : node.triCount > 0
          · rw [if_pos h2]
            exact ih rest _ hi nd l rr p
              (by have := bvhSize_pos node; omega) hr hok hrr hlp hpr hpos
          · rw [if_neg h2]
            obtain ⟨box, ol, orr, f, c⟩ := node
            match ol, orr with
            | some L, some R =>
              refine ih (L :: R :: rest) best _ nd l rr p ?_
                (List.mem_cons_of_mem L (List.mem_cons_of_mem R hr)) hok hrr hlp hpr hpos
              have : bvhSize (BVHNode.mk box (some L) (some R) f c)
                  = 1 + bvhSize L + bvhSize R := rfl
              simp [sizeSum] at *
              omega
            | some L, none =>
              refine ih (L :: rest) best _ nd l rr p ?_
                (List.mem_cons_of_mem L hr) hok hrr hlp hpr hpos
              have : bvhSize (BVHNode.mk box (some L) none f c) = 1 + bvhSize L := rfl
              simp [sizeSum] at *
              omega
            | none, some R =>
              refine ih (R :: rest) best _ nd l rr p ?_
                (List.mem_cons_of_mem R hr) hok hrr hlp hpr hpos
              have : bvhSize (BVHNode.mk box none (some R) f c) = 1 + bvhSize R := rfl
              simp [sizeSum] at *
              omega
            | none, none =>
              exact ih rest best _ nd l rr p
                (by have := bvhSize_pos (BVHNode.mk box none none f c); omega)
                hr hok hrr hlp hpr hpos


/-- Behaviour of the ground-plane and light-sphere phases of
`getIntersection` relative to the mesh result they start from: a hit is
reported exactly for a mesh hit or a ground/light candidate, the final
distance lower-bounds the candidate distances, and it is attained by the
object the final `id` names. -/
theorem ground_light_phase (ops : RealOps) (r : Ray) (mesh g fin : HitRec)
    (hcap : mesh.t ≤ 1e20)
    (hfalse : mesh.hit = false → mesh = noHit)
    (hg : g = if |r.d.y| > 1e-6 then
        (if planeT r > 1e-4 ∧ planeT r < mesh.t then
          { mesh with t := planeT r, id := 2, hit := true, normalHit := ⟨0, 1, 0⟩ }
         else mesh) else mesh)
    (hfin : fin = if lightDet r > 0 then
        (if lightT ops r > 1e-4 ∧ lightT ops r < g.t then
          { g with t := lightT ops r, id := 3, hit := true, normalHit :=
            Vec3.normV ops (r.o + r.d * lightT ops r - ⟨0, 0.6, 0⟩) }
         else g) else g) :
    (fin.hit = true ↔ mesh.hit = true ∨ groundCand r ∨ lightCand ops r) ∧
    fin.t ≤ mesh.t ∧
    (groundCand r → fin.t ≤ planeT r) ∧
    (lightCand ops r → fin.t ≤ lightT ops r) ∧
    (fin.hit = true →
      (fin.hit = mesh.hit ∧ fin.t = mesh.t ∧ fin.id = mesh.id) ∨
      (groundCand r ∧ fin.t = planeT r ∧ fin.id = 2) ∨
      (lightCand ops r ∧ fin.t = lightT ops r ∧ fin.id = 3)) := by
  have hgt : g.t ≤ mesh.t := by
    rw [hg]; split_ifs with h1 h2
    · exact le_of_lt h2.2
    · exact le_refl _
    · exact le_refl _
  have hgcase : (g = mesh ∧ (groundCand r → mesh.t ≤ planeT r)) ∨
      (groundCand r ∧ g.t = planeT r ∧ g.id = 2 ∧ g.hit = true) := by
    rw [hg]; split_ifs with h1 h2
    · exact Or.inr ⟨⟨h1, h2.1, lt_of_lt_of_le h2.2 hcap⟩, rfl, rfl, rfl⟩
    · refine Or.inl ⟨rfl, fun hgc => ?_⟩
      rw [not_and_or, not_lt, not_lt] at h2
      rcases h2 with h2 | h2
      · exact absurd hgc.2.1 (by simpa using h2)
      · exact h2
    · exact Or.inl ⟨rfl, fun hgc => absurd hgc.1 h1⟩
  have hft : fin.t ≤ g.t := by
    rw [hfin]; split_ifs with h3 h4
    · exact le_of_lt h4.2
    · exact le_refl _
    · exact le_refl _
  have hfcase : (fin = g ∧ (lightCand ops r → g.t ≤ lightT ops r)) ∨
      (lightCand ops r ∧ fin.t = lightT ops r ∧ fin.id = 3 ∧ fin.hit = true) := by
    rw [hfin]; split_ifs with h3 h4
    · exact Or.inr ⟨⟨h3, h4.1, lt_of_lt_of_le h4.2 (le_trans hgt hcap)⟩, rfl, rfl, rfl⟩
    · refine Or.inl ⟨rfl, fun hlc => ?_⟩
      rw [not_and_or, not_lt, not_lt] at h4
      rcases h4 with h4 | h4
      · exact absurd hlc.2.1 (by simpa using h4)
      · exact h4
    · exact Or.inl ⟨rfl, fun hlc => absurd hlc.1 h3⟩
  have hmesh_t_1e20 : mesh.hit = false → mesh.t = 1e20 := by
    intro h; rw [hfalse h]; rfl
  have hg_noHit : g.hit = false → g.t = 1e20 := by
    intro h
    rcases hgcase with ⟨hgm, _⟩ | ⟨_, _, _, hh⟩
    · rw [hgm] at h ⊢; exact hmesh_t_1e20 h
    · rw [hh] at h; exact absurd h (by simp)
  have hmesh_g : mesh.hit = true → g.hit = true := by
    intro h
    rcases hgcase with ⟨hgm, _⟩ | ⟨_, _, _, hh⟩
    · rw [hgm]; exact h
    · exact hh
  have hg_fin : g.hit = true → fin.hit = true := by
    intro h
    rcases hfcase with ⟨hfg, _⟩ | ⟨_, _, _, hh⟩
    · rw [hfg]; exact h
    · exact hh
  have hground_g : groundCand r → g.hit = true := by
    intro hgc
    rcases hgcase with ⟨hgm, himp⟩ | ⟨_, _, _, hh⟩
    · have hmt : mesh.t ≤ planeT r := himp hgc
      have : mesh.hit = true := by
        by_contra hmf
        rw [Bool.not_eq_true] at hmf
        have := hmesh_t_1e20 hmf
        have := hgc.2.2
        linarith
      rw [hgm]; exact this
    · exact hh
  have hlight_fin : lightCand ops r → fin.hit = true := by
    intro hlc
    rcases hfcase with ⟨hfg, himp⟩ | ⟨_, _, _, hh⟩
    · have hgl : g.t ≤ lightT ops r := himp hlc
      have hgh : g.hit = true := by
        by_contra hgf
        rw [Bool.not_eq_true] at hgf
        have := hg_noHit hgf
        have := hlc.2.2
        linarith
      rw [hfg]; exact hgh
    · exact hh
  refine ⟨⟨?_, ?_⟩, le_trans hft hgt, ?_, ?_, ?_⟩
  · -- hit implies a candidate
    intro hfh
    rcases hfcase with ⟨hfg, _⟩ | ⟨hlc, _, _, _⟩
    · rw [hfg] at hfh
      rcases hgcase with ⟨hgm, _⟩ | ⟨hgc, _, _, _⟩
      · rw [hgm] at hfh; exact Or.inl hfh
      · exact Or.inr (Or.inl hgc)
    · exact Or.inr (Or.inr hlc)
  · -- any candidate implies a hit
    intro hc
    rcases hc with hm | hgc | hlc
    · exact hg_fin (hmesh_g hm)
    · exact hg_fin (hground_g hgc)
    · exact hlight_fin hlc
  · -- lower bound by the ground candidate
    intro hgc
    refine le_trans hft ?_
    rcases hgcase with ⟨hgm, himp⟩ | ⟨_, he, _, _⟩
    · rw [hgm]; exact himp hgc
    · exact le_of_eq he
  · -- lower bound by the light candidate
    intro hlc
    rcases hfcase with ⟨hfg, himp⟩ | ⟨_, he, _, _⟩
    · rw [hfg]; exact himp hlc
    · exact le_of_eq he
  · -- the final id names an object attaining the final distance
    intro hfh
    rcases hfcase with ⟨hfg, _⟩ | ⟨hlc, he1, he2, _⟩
    · rcases hgcase with ⟨hgm, _⟩ | ⟨hgc, g1, g2, _⟩
      · exact Or.inl ⟨by rw [hfg, hgm], by rw [hfg, hgm], by rw [hfg, hgm]⟩
      · exact Or.inr (Or.inl ⟨hgc, by rw [hfg]; exact g1, by rw [hfg]; exact g2⟩)
    · exact Or.inr (Or.inr ⟨hlc, he1, he2⟩)


/-- C1, amended: for rays whose direction components all exceed the `1e-8`
clamp of the `Ray` constructor, `getIntersection` on a scene whose BVH
`buildBVH` built returns true exactly when some mesh triangle intersects
the ray per the ray-triangle test (below the `1e20` initialisation), or the
guarded ground-plane test or guarded light-sphere test yields a candidate;
the reported distance is the minimum over all those candidate distances,
and the tag `id` names an object attaining it.  Without the direction
hypotheses the claim is false: the clamped reciprocal makes the slab test
cull boxes the ray enters (see the counterexample). -/
theorem getIntersection_nearest (ops : RealOps) (sc0 : SceneData) (o d : Vec3)
    (hne : sc0.faces ≠ [])
    (hdx : 1e-8 < |d.x|) (hdy : 1e-8 < |d.y|) (hdz : 1e-8 < |d.z|) :
    ((getIntersection ops (some (buildBVH sc0)) (mkRay o d)).hit = true ↔
      (∃ j, meshCand (buildBVH sc0) (mkRay o d) j) ∨ groundCand (mkRay o d) ∨
        lightCand ops (mkRay o d)) ∧
    (∀ j, meshCand (buildBVH sc0) (mkRay o d) j →
      (getIntersection ops (some (buildBVH sc0)) (mkRay o d)).t
        ≤ triDist (buildBVH sc0) (mkRay o d) j) ∧
    (groundCand (mkRay o d) →
      (getIntersection ops (some (buildBVH sc0)) (mkRay o d)).t
        ≤ planeT (mkRay o d)) ∧
    (lightCand ops (mkRay o d) →
      (getIntersection ops (some (buildBVH sc0)) (mkRay o d)).t
        ≤ lightT ops (mkRay o d)) ∧
    ((getIntersection ops (some (buildBVH sc0)) (mkRay o d)).hit = true →
      ((getIntersection ops (some (buildBVH sc0)) (mkRay o d)).id = 1 ∧
        ∃ j, meshCand (buildBVH sc0) (mkRay o d) j ∧
          (getIntersection ops (some (buildBVH sc0)) (mkRay o d)).t
            = triDist (buildBVH sc0) (mkRay o d) j) ∨
      ((getIntersection ops (some (buildBVH sc0)) (mkRay o d)).id = 2 ∧
        groundCand (mkRay o d) ∧
        (getIntersection ops (some (buildBVH sc0)) (mkRay o d)).t
          = planeT (mkRay o d)) ∨
      ((getIntersection ops (some (buildBVH sc0)) (mkRay o d)).id = 3 ∧
        lightCand ops (mkRay o d) ∧
        (getIntersection ops (some (buildBVH sc0)) (mkRay o d)).t
          = lightT ops (mkRay o d))) := by
  have hemp : sc0.faces.isEmpty = false := by
    simpa [List.isEmpty_iff] using hne
  have hn : 0 < sc0.faces.length := List.length_pos.mpr hne
  have hBB : buildBVH sc0 =
      { sc0 with
        triIndices := (buildBVHRec sc0.vertices sc0.faces sc0.faces.length
          (List.range sc0.faces.length) 0 sc0.faces.length).2,
        bvhRoot := some (buildBVHRec sc0.vertices sc0.faces sc0.faces.length
          (List.range sc0.faces.length) 0 sc0.faces.length).1 } := by
    simp only [buildBVH, hemp, Bool.false_eq_true, if_false]
  obtain ⟨b1, b2, b3, b4⟩ := buildBVHRec_spec sc0.vertices sc0.faces
    sc0.faces.length (List.range sc0.faces.length) 0 sc0.faces.length
    hn (by omega) (by simp)
  have hlen : (buildBVHRec sc0.vertices sc0.faces sc0.faces.length
      (List.range sc0.faces.length) 0 sc0.faces.length).2.length =
      sc0.faces.length := by simpa using b1
  have hperm : (buildBVHRec sc0.vertices sc0.faces sc0.faces.length
      (List.range sc0.faces.length) 0 sc0.faces.length).2.Perm
      (List.range sc0.faces.length) :=
    perm_of_seg_perm _ _ sc0.faces.length hlen (by simp) b3
  rw [hBB]
  set a : List ℕ := (buildBVHRec sc0.vertices sc0.faces sc0.faces.length
    (List.range sc0.faces.length) 0 sc0.faces.length).2 with ha
  set root : BVHNode := (buildBVHRec sc0.vertices sc0.faces sc0.faces.length
    (List.range sc0.faces.length) 0 sc0.faces.length).1 with hroot
  set scB : SceneData := { sc0 with triIndices := a, bvhRoot := some root }
    with hscB
  set r : Ray := mkRay o d with hr
  have hok : TreeOK scB.vertices scB.faces scB.triIndices root 0 sc0.faces.length := b4
  have haLen : scB.triIndices.length = sc0.faces.length := hlen
  have hidx : ∀ p, p < scB.triIndices.length →
      scB.triIndices.getD p 0 < scB.faces.length := by
    intro p hp
    have hp' : p < a.length := hp
    have hmem : a.getD p 0 ∈ a := by
      rw [List.getD_eq_getElem a 0 hp']
      exact List.getElem_mem hp'
    have := hperm.mem_iff.mp hmem
    have := List.mem_range.mp this
    exact this
  have hsurj : ∀ j, j < scB.faces.length → ∃ p, p < sc0.faces.length ∧
      scB.triIndices.getD p 0 = j := by
    intro j hj
    have hmem : j ∈ a := hperm.mem_iff.mpr (List.mem_range.mpr hj)
    obtain ⟨p, hp, hpe⟩ := List.mem_iff_getElem.mp hmem
    refine ⟨p, by omega, ?_⟩
    rw [List.getD_eq_getElem a 0 hp]
    exact hpe
  set mesh : HitRec := (traverseBVH ops scB r (bvhSize root + 1) [root] noHit 1).1
    with hmesh
  have hstack : ∀ nd ∈ [root], ∃ l rr,
      TreeOK scB.vertices scB.faces scB.triIndices nd l rr ∧
      rr ≤ scB.triIndices.length := by
    intro nd hm
    rcases List.mem_cons.mp hm with hnd | hm2
    · exact ⟨0, sc0.faces.length, hnd ▸ hok, by omega⟩
    · exact absurd hm2 (List.not_mem_nil nd)
  have hcap : mesh.t ≤ 1e20 :=
    traverse_t_le ops scB r (bvhSize root + 1) [root] noHit 1
  have hsound := traverse_sound ops scB r hidx (bvhSize root + 1) [root] noHit 1 hstack
  rw [← hmesh] at hsound
  have hfalse : mesh.hit = false → mesh = noHit := by
    intro hmf
    rcases hsound with heq | ⟨_, hh, _⟩
    · exact heq
    · rw [hmf] at hh; exact absurd hh (by simp)
  have hM2 : ∀ j, meshCand scB r j → mesh.t ≤ triDist scB r j := by
    intro j hj
    obtain ⟨p, hp, hpe⟩ := hsurj j hj.1
    have := traverse_min ops scB o d hdx hdy hdz (bvhSize root + 1) [root] noHit 1
      root 0 sc0.faces.length p (by simp [sizeSum]) (List.mem_cons_self root [])
      hok (by omega) (Nat.zero_le p) hp (by rw [hpe]; exact hj.2.1)
    rw [hpe] at this
    exact this
  have hM1 : mesh.hit = true ↔ ∃ j, meshCand scB r j := by
    constructor
    · intro hh
      rcases hsound with heq | ⟨hlt, _, _, j, hj1, hj2, hj3⟩
      · rw [heq] at hh; exact absurd hh (by simp [noHit])
      · exact ⟨j, hj1, hj3, by rw [← hj2]; exact hlt⟩
    · intro ⟨j, hj⟩
      by_contra hh
      rw [Bool.not_eq_true] at hh
      have h1 := hM2 j hj
      have h2 := hj.2.2
      rw [hfalse hh] at h1
      have : (noHit.t : ℚ) = 1e20 := rfl
      linarith [h1, h2]
  have hM3 : mesh.hit = true → mesh.id = 1 ∧
      ∃ j, meshCand scB r j ∧ mesh.t = triDist scB r j := by
    intro hh
    rcases hsound with heq | ⟨hlt, _, hid, j, hj1, hj2, hj3⟩
    · rw [heq] at hh; exact absurd hh (by simp [noHit])
    · exact ⟨hid, j, ⟨hj1, hj3, by rw [← hj2]; exact hlt⟩, hj2⟩
  have hpost := ground_light_phase ops r mesh
    (if |r.d.y| > 1e-6 then
      (if planeT r > 1e-4 ∧ planeT r < mesh.t then
        { mesh with t := planeT r, id := 2, hit := true, normalHit := ⟨0, 1, 0⟩ }
       else mesh) else mesh)
    (getIntersection ops (some scB) r)
    hcap hfalse rfl (by rfl)
  obtain ⟨hF1, hF2, hF3, hF4, hF5⟩ := hpost
  refine ⟨?_, ?_, hF3, hF4, ?_⟩
  · rw [hF1, hM1]
  · intro j hj
    exact le_trans hF2 (hM2 j hj)
  · intro hfh
    rcases hF5 hfh with ⟨e1, e2, e3⟩ | ⟨hgc, he, hid⟩ | ⟨hlc, he, hid⟩
    · have hmh : mesh.hit = true := by rw [← e1]; exact hfh
      obtain ⟨hid1, j, hjc, hje⟩ := hM3 hmh
      exact Or.inl ⟨by rw [e3]; exact hid1, j, hjc, by rw [e2]; exact hje⟩
    · exact Or.inr (Or.inl ⟨hid, hgc, he⟩)
    · exact Or.inr (Or.inr ⟨hid, hlc, he⟩)


/-- Base scene for the C1 witness: one triangle in general position. -/
def sceneC1 : SceneData :=
  { vertices := [⟨60, 0, 0⟩, ⟨0, 60, 0⟩, ⟨0, 0, 60⟩],
    faces := [[0, 1, 2]], triIndices := [], textures := [],
    faceTextureID := [], faceUVs := [], bvhRoot := none }

/-- Witness for the amended C1 theorem: its hypotheses hold at this concrete
scene and ray, and the theorem then yields the hit characterisation. -/
theorem getIntersection_nearest_witness :
    (sceneC1.faces ≠ [] ∧ (1e-8 : ℚ) < |(1 : ℚ)| ∧ (1e-8 : ℚ) < |(2 : ℚ)| ∧
      (1e-8 : ℚ) < |(3 : ℚ)|) ∧
    ((getIntersection ratOps (some (buildBVH sceneC1))
        (mkRay ⟨0, 0, 0⟩ ⟨1, 2, 3⟩)).hit = true ↔
      (∃ j, meshCand (buildBVH sceneC1) (mkRay ⟨0, 0, 0⟩ ⟨1, 2, 3⟩) j) ∨
        groundCand (mkRay ⟨0, 0, 0⟩ ⟨1, 2, 3⟩) ∨
        lightCand ratOps (mkRay ⟨0, 0, 0⟩ ⟨1, 2, 3⟩)) :=
  ⟨⟨by decide, by decide, by decide, by decide⟩,
   (getIntersection_nearest ratOps sceneC1 ⟨0, 0, 0⟩ ⟨1, 2, 3⟩ (by decide)
     (by decide) (by decide) (by decide)).1⟩


/-! ## Embedding of `radiance` (PathTracer.h) and its helpers, for C4/C5.
The C++ PRNG state (`uint32_t& seed`) is threaded explicitly: each consumer
returns its value together with the advanced seed. -/

/-- Embedding of `hash_pcg`: returns (value, new state), both reduced
modulo `2 ^ 32` exactly where the `uint32_t` arithmetic wraps. -/
def hash_pcg (state : ℕ) : ℕ × ℕ :=
  let prev := state
  let state2 := (state * 747796405 + 2891336453) % 2 ^ 32
  let word := ((prev >>> ((prev >>> 28) + 4)) ^^^ prev) * 277803737 % 2 ^ 32
  ((word >>> 22) ^^^ word, state2)

/-- Embedding of `random_float`: the hashed value scaled into `[0, 1)`. -/
def random_float (seed : ℕ) : ℚ × ℕ :=
  let h := hash_pcg seed
  ((h.1 : ℚ) * (1 / 4294967296), h.2)

/-- Embedding of `randomUnitVector` (two uniform draws, spherical
coordinates; `sqrt`, `cos`, `sin` through `ops`). -/
def randomUnitVector (ops : RealOps) (seed : ℕ) : Vec3 × ℕ :=
  let rz := random_float seed
  let z := rz.1 * 2 - 1
  let ra := random_float rz.2
  let a := ra.1 * 2 * 3.1415926
  let rr := ops.sqrt (1 - z * z)
  (⟨rr * ops.cos a, rr * ops.sin a, z⟩, ra.2)

/-- Embedding of `getPixel` (clamp-to-edge pixel fetch). -/
def getPixel (tex : TextureData) (x y : ℤ) : Vec3 :=
  let x2 := Max.max 0 (Min.min x (tex.width - 1))
  let y2 := Max.max 0 (Min.min y (tex.height - 1))
  let idx := (y2 * tex.width + x2) * 3
  ⟨tex.pixels.getD idx.toNat 0, tex.pixels.getD (idx + 1).toNat 0,
   tex.pixels.getD (idx + 2).toNat 0⟩

/-- Embedding of `sampleTexture` (tiling plus bilinear interpolation). -/
def sampleTexture (tex : TextureData) (u v : ℚ) : Vec3 :=
  if tex.pixels.isEmpty then ⟨1, 0, 1⟩ else
  let u2 := u - (⌊u⌋ : ℚ)
  let v2 := v - (⌊v⌋ : ℚ)
  let px := u2 * (tex.width : ℚ) - 0.5
  let py := v2 * (tex.height : ℚ) - 0.5
  let x0 := ⌊px⌋
  let y0 := ⌊py⌋
  let x1 := x0 + 1
  let y1 := y0 + 1
  let dx := px - (x0 : ℚ)
  let dy := py - (y0 : ℚ)
  let c00 := getPixel tex x0 y0
  let c10 := getPixel tex x1 y0
  let c01 := getPixel tex x0 y1
  let c11 := getPixel tex x1 y1
  let top := c00 * (1 - dx) + c10 * dx
  let bot := c01 * (1 - dx) + c11 * dx
  top * (1 - dy) + bot * dy

/-- The albedo `f` of one `radiance` iteration: grey 0.7 for mesh hits
(replaced by a bilinear texture sample when the face carries a valid
texture id and at least 3 UVs), checkerboard `0.8/0.2` otherwise.  The
`none` scene case is unreachable (a mesh hit needs a mesh) and keeps the
grey base. -/
def radianceAlbedo (scene : Option SceneData) (hit : HitRec) (x : Vec3) : Vec3 :=
  if hit.id = 1 then
    match scene with
    | none => ⟨0.7, 0.7, 0.7⟩
    | some sc =>
      if 0 ≤ hit.hitFaceIndex ∧ hit.hitFaceIndex < (sc.faceTextureID.length : ℤ) then
        let texID := sc.faceTextureID.getD hit.hitFaceIndex.toNat 0
        if 0 ≤ texID ∧ texID < (sc.textures.length : ℤ) then
          let uvs := sc.faceUVs.getD hit.hitFaceIndex.toNat []
          if 3 ≤ uvs.length then
            let u0 := uvs.getD 0 ⟨0, 0⟩
            let u1 := uvs.getD 1 ⟨0, 0⟩
            let u2 := uvs.getD 2 ⟨0, 0⟩
            let iu := (1 - hit.hitU - hit.hitV) * u0.u + hit.hitU * u1.u
              + hit.hitV * u2.u
            let iv := (1 - hit.hitU - hit.hitV) * u0.v + hit.hitU * u1.v
              + hit.hitV * u2.v
            sampleTexture (sc.textures.getD texID.toNat ⟨0, 0, []⟩) iu iv
          else ⟨0.7, 0.7, 0.7⟩
        else ⟨0.7, 0.7, 0.7⟩
      else ⟨0.7, 0.7, 0.7⟩
  else
    if (⌊x.x⌋ + ⌊x.z⌋) % 2 = 0 then ⟨0.8, 0.8, 0.8⟩ else ⟨0.2, 0.2, 0.2⟩

/-- The next-event-estimation block of one `radiance` iteration (one shadow
sample): returns the direct-light contribution and the advanced seed. -/
def neeSample (ops : RealOps) (scene : Option SceneData) (x nl f : Vec3)
    (seed : ℕ) : Vec3 × ℕ :=
  let ruv := randomUnitVector ops seed
  let lightSample := (⟨0, 0.6, 0⟩ : Vec3) + ruv.1 * (0.04 : ℚ)
  let toLight := lightSample - x
  let distSq := toLight.dot toLight
  let dist := ops.sqrt distSq
  let L_dir := toLight * (1 / dist)
  let sh := getIntersection ops scene (mkRay (x + nl * (1e-4 : ℚ)) L_dir)
  let dls :=
    if sh.hit = true ∧ sh.id = 3 ∧ sh.t < dist + 0.1 then
      let cosT := nl.dot L_dir
      if cosT > 0 then
        let area := 4 * 3.1415926 * 0.04 * 0.04
        let g0 := cosT * (area / distSq)
        let g := if g0 > 10 then (10 : ℚ) else g0
        ((⟨8, 8, 8⟩ : Vec3) * f) * g
      else ⟨0, 0, 0⟩
    else ⟨0, 0, 0⟩
  (dls, ruv.2)

/-- The cosine-weighted bounce direction of one `radiance` iteration (two
uniform draws, local orthonormal basis around `nl`). -/
def bounceDir (ops : RealOps) (nl : Vec3) (seed : ℕ) : Vec3 × ℕ :=
  let r1v := random_float seed
  let r1 := 2 * 3.14159 * r1v.1
  let r2v := random_float r1v.2
  let r2 := r2v.1
  let r2s := ops.sqrt r2
  let w := nl
  let u := Vec3.normV ops
    ((if |w.x| > 0.1 then (⟨0, 1, 0⟩ : Vec3) else ⟨1, 0, 0⟩).cross w)
  let v := w.cross u
  (Vec3.normV ops (u * ops.cos r1 * r2s + v * ops.sin r1 * r2s
    + w * ops.sqrt (1 - r2)), r2v.2)

/-- The bounce loop of `radiance`.  `remaining` counts the iterations the
`for (depth = 0; depth < 5; ++depth)` loop still has (callers pass
`5 - depth`); `depth` is the loop counter the body tests.  Returns the
colour together with the final seed. -/
def radianceLoop (ops : RealOps) (scene : Option SceneData) :
    ℕ → ℕ → Ray → ℕ → Vec3 → Vec3 → Vec3 × ℕ
  | 0, _, _, seed, _, finalColor => (finalColor, seed)
  | remaining + 1, depth, r, seed, throughput, finalColor =>
    let hit := getIntersection ops scene r
    if hit.hit = false then
      (finalColor + throughput * (⟨0.05, 0.05, 0.05⟩ : Vec3), seed)
    else if hit.id = 3 then
      (if depth = 0 then finalColor + throughput * (⟨8, 8, 8⟩ : Vec3)
       else finalColor, seed)
    else
      let x := r.o + r.d * hit.t
      let nl := if hit.normalHit.dot r.d < 0 then hit.normalHit
        else hit.normalHit * (-1 : ℚ)
      let f := radianceAlbedo scene hit x
      let nee := neeSample ops scene x nl f seed
      let finalColor1 := finalColor + throughput * nee.1 * (1 / 1 : ℚ)
      let p := Max.max (Max.max f.x f.y) f.z
      let roulette : Bool × Vec3 × ℕ :=
        if depth > 2 then
          let rf := random_float nee.2
          if rf.1 < p then (true, f * (1 / p), rf.2) else (false, f, rf.2)
        else (true, f, nee.2)
      if roulette.1 = false then (finalColor1, roulette.2.2)
      else
        let bd := bounceDir ops nl roulette.2.2
        let rp := mkRay x bd.1
        radianceLoop ops scene remaining (depth + 1)
          { rp with o := rp.o + rp.d * (1e-4 : ℚ) } bd.2
          (throughput * roulette.2.1) finalColor1

/-- Embedding of `radiance`: 5 bounces from depth 0, unit throughput, black
accumulator. -/
def radiance (ops : RealOps) (scene : Option SceneData) (r : Ray) (seed : ℕ) :
    Vec3 × ℕ :=
  radianceLoop ops scene 5 0 r seed ⟨1, 1, 1⟩ ⟨0, 0, 0⟩


/-- Claim C4: whenever an iteration's scene intersection reports a
light-sphere hit (`id = 3`), the loop returns immediately (same seed, no
recursion): at depth 0 it returns the accumulated colour plus throughput
times the light emission `(8, 8, 8)`; at any later depth it returns the
accumulated colour with no emission added. -/
theorem radiance_light_hit (ops : RealOps) (scene : Option SceneData)
    (remaining depth : ℕ) (r : Ray) (seed : ℕ) (tp fc : Vec3)
    (hhit : (getIntersection ops scene r).hit = true)
    (hid : (getIntersection ops scene r).id = 3) :
    radianceLoop ops scene (remaining + 1) depth r seed tp fc
      = (if depth = 0 then fc + tp * (⟨8, 8, 8⟩ : Vec3) else fc, seed) := by
  rw [radianceLoop]
  rw [if_neg (by rw [hhit]; exact fun h => Bool.noConfusion h)]
  rw [if_pos hid]

/-- Witness for C4: a ray straight up into the light sphere, at depth 0
(emission added) and depth 1 (no emission), seed unchanged. -/
theorem radiance_light_hit_witness :
    (getIntersection ratOps none (mkRay ⟨0, 0, 0⟩ ⟨0, 1, 0⟩)).hit = true ∧
    (getIntersection ratOps none (mkRay ⟨0, 0, 0⟩ ⟨0, 1, 0⟩)).id = 3 ∧
    radianceLoop ratOps none 5 0 (mkRay ⟨0, 0, 0⟩ ⟨0, 1, 0⟩) 7 ⟨1, 1, 1⟩ ⟨0, 0, 0⟩
      = ((⟨0, 0, 0⟩ : Vec3) + (⟨1, 1, 1⟩ : Vec3) * (⟨8, 8, 8⟩ : Vec3), 7) ∧
    radianceLoop ratOps none 4 1 (mkRay ⟨0, 0, 0⟩ ⟨0, 1, 0⟩) 7 ⟨1, 1, 1⟩ ⟨0, 0, 0⟩
      = ((⟨0, 0, 0⟩ : Vec3), 7) := by
  refine ⟨by decide, by decide, ?_, ?_⟩
  · rw [radiance_light_hit ratOps none 4 0 (mkRay ⟨0, 0, 0⟩ ⟨0, 1, 0⟩) 7
      ⟨1, 1, 1⟩ ⟨0, 0, 0⟩ (by decide) (by decide)]
    decide
  · rw [radiance_light_hit ratOps none 3 1 (mkRay ⟨0, 0, 0⟩ ⟨0, 1, 0⟩) 7
      ⟨1, 1, 1⟩ ⟨0, 0, 0⟩ (by decide) (by decide)]
    decide


set_option maxRecDepth 4000 in
/-- Claim C5: on a surface-hit iteration, once `depth > 2` the survival
probability is `p = max(f.x, f.y, f.z)` (the maximum channel of the albedo
`f`); if the next random number is below `p` the path continues with the
albedo rescaled by `1/p` multiplied into the throughput, otherwise it
terminates immediately (returning the NEE-updated colour and the seed after
the roulette draw); at `depth ≤ 2` no roulette draw is made and the path
always continues with the unscaled albedo. -/
theorem radiance_roulette (ops : RealOps) (scene : Option SceneData)
    (remaining depth : ℕ) (r : Ray) (seed : ℕ) (tp fc : Vec3)
    (x nl f : Vec3) (p : ℚ) (fc1 : Vec3) (s1 : ℕ)
    (hhit : (getIntersection ops scene r).hit = true)
    (hid : ¬ (getIntersection ops scene r).id = 3)
    (hx : x = r.o + r.d * (getIntersection ops scene r).t)
    (hnl : nl = if (getIntersection ops scene r).normalHit.dot r.d < 0
      then (getIntersection ops scene r).normalHit
      else (getIntersection ops scene r).normalHit * (-1 : ℚ))
    (hf : f = radianceAlbedo scene (getIntersection ops scene r) x)
    (hp : p = Max.max (Max.max f.x f.y) f.z)
    (hfc1 : fc1 = fc + tp * (neeSample ops scene x nl f seed).1 * (1 / 1 : ℚ))
    (hs1 : s1 = (neeSample ops scene x nl f seed).2) :
    (2 < depth → (random_float s1).1 < p →
      radianceLoop ops scene (remaining + 1) depth r seed tp fc
        = radianceLoop ops scene remaining (depth + 1)
            { mkRay x (bounceDir ops nl (random_float s1).2).1 with
              o := (mkRay x (bounceDir ops nl (random_float s1).2).1).o
                + (mkRay x (bounceDir ops nl (random_float s1).2).1).d * (1e-4 : ℚ) }
            (bounceDir ops nl (random_float s1).2).2
            (tp * (f * (1 / p))) fc1) ∧
    (2 < depth → ¬ (random_float s1).1 < p →
      radianceLoop ops scene (remaining + 1) depth r seed tp fc
        = (fc1, (random_float s1).2)) ∧
    (depth ≤ 2 →
      radianceLoop ops scene (remaining + 1) depth r seed tp fc
        = radianceLoop ops scene remaining (depth + 1)
            { mkRay x (bounceDir ops nl s1).1 with
              o := (mkRay x (bounceDir ops nl s1).1).o
                + (mkRay x (bounceDir ops nl s1).1).d * (1e-4 : ℚ) }
            (bounceDir ops nl s1).2 (tp * f) fc1) := by
  rw [radianceLoop]
  rw [if_neg (by rw [hhit]; exact fun h => Bool.noConfusion h)]
  rw [if_neg hid]
  dsimp only
  rw [← hx, ← hnl, ← hf, ← hs1, ← hfc1, ← hp]
  refine ⟨?_, ?_, ?_⟩
  · intro hd hrf
    rw [if_pos hd, if_pos hrf]
    dsimp only
    rw [if_neg (fun h => Bool.noConfusion h)]
  · intro hd hrf
    rw [if_pos hd, if_neg hrf]
    dsimp only
    rw [if_pos rfl]
  · intro hd
    rw [if_neg (by omega : ¬ depth > 2)]
    dsimp only
    rw [if_neg (fun h => Bool.noConfusion h)]


/-- Concrete iteration state for the C5 witness: a ray hitting the dark
checkerboard ground (albedo 0.2, so survival probability 0.2; the next
random draw is ≈ 0.1356 < 0.2, so the path survives and rescales). -/
def c5ray : Ray := mkRay ⟨0, 0, 0⟩ ⟨1, -1, 0⟩

def c5hit : HitRec := getIntersection ratOps none c5ray

def c5x : Vec3 := c5ray.o + c5ray.d * c5hit.t

def c5nl : Vec3 := if c5hit.normalHit.dot c5ray.d < 0 then c5hit.normalHit
  else c5hit.normalHit * (-1 : ℚ)

def c5f : Vec3 := radianceAlbedo none c5hit c5x

def c5p : ℚ := Max.max (Max.max c5f.x c5f.y) c5f.z

def c5s1 : ℕ := (neeSample ratOps none c5x c5nl c5f 0).2

def c5fc1 : Vec3 :=
  (⟨0, 0, 0⟩ : Vec3) + (⟨1, 1, 1⟩ : Vec3) * (neeSample ratOps none c5x c5nl c5f 0).1
    * (1 / 1 : ℚ)

/-- Witness for C5 at the concrete state above, depth 3 (roulette active,
draw survives: the path continues with throughput rescaled by `1/p`). -/
theorem radiance_roulette_witness :
    (getIntersection ratOps none c5ray).hit = true ∧
    ¬ (getIntersection ratOps none c5ray).id = 3 ∧
    2 < 3 ∧ (random_float c5s1).1 < c5p ∧
    radianceLoop ratOps none (1 + 1) 3 c5ray 0 ⟨1, 1, 1⟩ ⟨0, 0, 0⟩
      = radianceLoop ratOps none 1 (3 + 1)
          { mkRay c5x (bounceDir ratOps c5nl (random_float c5s1).2).1 with
            o := (mkRay c5x (bounceDir ratOps c5nl (random_float c5s1).2).1).o
              + (mkRay c5x (bounceDir ratOps c5nl (random_float c5s1).2).1).d
                * (1e-4 : ℚ) }
          (bounceDir ratOps c5nl (random_float c5s1).2).2
          ((⟨1, 1, 1⟩ : Vec3) * (c5f * (1 / c5p))) c5fc1 :=
  ⟨by decide, by decide, by decide, by decide,
   (radiance_roulette ratOps none 1 3 c5ray 0 ⟨1, 1, 1⟩ ⟨0, 0, 0⟩ c5x c5nl c5f c5p
       c5fc1 c5s1 (by decide) (by decide) rfl rfl rfl rfl rfl rfl).1
     (by decide) (by decide)⟩


/-! ## Embedding of `updatePathTracingFrame` (src/src/main.cpp) for C6/C7.
The globals the function reads and writes (`last_*` statics, `g_ptSamples`,
`g_accumBuffer`, `g_pixelBuffer`) become an explicit `FrameState`; the
camera globals become `CameraParams`.  The per-frame `toInt` byte
conversion is the ℚ-threaded instance of the same source function that C10
analyses over ℝ (its `pow(·, 1/2.2)` goes through `ops.gamma`). -/

/-- Camera globals (`g_rotation_x/y`, `g_zoom`, `g_offset_x/y`). -/
structure CameraParams where
  rotX : ℚ
  rotY : ℚ
  zoom : ℚ
  offX : ℚ
  offY : ℚ
deriving DecidableEq, Repr

/-- Render state across frames: last-seen camera parameters (the `static`
locals), the sample counter, the accumulation buffer and the byte pixel
buffer (3 entries per pixel). -/
structure FrameState where
  lastRotX : ℚ
  lastRotY : ℚ
  lastZoom : ℚ
  lastOffX : ℚ
  lastOffY : ℚ
  ptSamples : ℕ
  accum : List Vec3
  pixels : List ℕ
deriving DecidableEq, Repr

/-- ℚ instance of `aces` for the frame driver. -/
def acesQ (x : ℚ) : ℚ :=
  (x * (2.51 * x + 0.03)) / (x * (2.43 * x + 0.59) + 0.14)

/-- ℚ instance of `clamp` for the frame driver. -/
def clampQ (x : ℚ) : ℚ := if x < 0 then 0 else if x > 1 then 1 else x

/-- C++ `int(...)` over ℚ: truncation toward zero. -/
def intCastQ (x : ℚ) : ℤ := if x < 0 then -Int.floor (-x) else Int.floor x

/-- ℚ instance of `toInt` for the frame driver (`pow(·, 1/2.2)` through
`ops.gamma`). -/
def toIntQ (ops : RealOps) (x : ℚ) : ℤ :=
  intCastQ (ops.gamma (clampQ (acesQ (x * 0.6))) * 255 + 0.5)

/-- The three byte stores of one pixel of the block fill. -/
def writePixel (pix : List ℕ) (idx r g b : ℕ) : List ℕ :=
  ((pix.set idx r).set (idx + 1) g).set (idx + 2) b

/-- The block-fill loops of `updatePathTracingFrame`: replicate the sampled
colour over the `step × step` block clipped to the window. -/
def blockFill (W H step x y r g b : ℕ) (pix : List ℕ) : List ℕ :=
  (List.range step).foldl (fun px q =>
    if y + q ≥ H then px else
    (List.range step).foldl (fun px2 k =>
      if x + k ≥ W then px2 else
      writePixel px2 (((H - 1 - (y + q)) * W + (x + k)) * 3) r g b) px) pix

/-- The indices `0, step, 2·step, …` below `n` (the strided loops). -/
def stepRange (n step : ℕ) : List ℕ :=
  (List.range ((n + step - 1) / step)).map (fun k => k * step)

/-- The per-row seed of `updatePathTracingFrame`, as the `uint32_t`
assignment computes it. -/
def rowSeed (y samples : ℕ) : ℕ := (y * 91214 + samples * 71932) % 2 ^ 32

/-- One pixel of the render loop: optional tent-filter jitter (only at
`step = 1`), primary ray, `radiance`, accumulate-or-overwrite, byte
conversion of `accum[i] / samples` and block fill.  The folded state is
`(seed, accum, pixels)`. -/
def renderPixel (ops : RealOps) (scene : Option SceneData)
    (W H step samples : ℕ) (cx cy camO camD : Vec3) (y : ℕ)
    (st : ℕ × List Vec3 × List ℕ) (x : ℕ) : ℕ × List Vec3 × List ℕ :=
  let i := (H - 1 - y) * W + x
  let jit : (ℚ × ℚ) × ℕ :=
    if step = 1 then
      let r1v := random_float st.1
      let r1 := 2 * r1v.1
      let r2v := random_float r1v.2
      let r2 := 2 * r2v.1
      let dx := if r1 < 1 then ops.sqrt r1 - 1 else 1 - ops.sqrt (2 - r1)
      let dy := if r2 < 1 then ops.sqrt r2 - 1 else 1 - ops.sqrt (2 - r2)
      ((dx, dy), r2v.2)
    else ((0, 0), st.1)
  let d := cx * ((((x : ℚ) + jit.1.1) / (W : ℚ) - 0.5) * 2)
    + cy * ((((y : ℚ) + jit.1.2) / (H : ℚ) - 0.5) * 2) + camD
  let rc := radiance ops scene (mkRay camO (Vec3.normV ops d)) jit.2
  let accum2 :=
    if step = 1 then st.2.1.set i (st.2.1.getD i ⟨0, 0, 0⟩ + rc.1)
    else st.2.1.set i (rc.1 * (samples : ℚ))
  let color := accum2.getD i ⟨0, 0, 0⟩ * (1 / (samples : ℚ))
  (rc.2, accum2,
   blockFill W H step x y ((toIntQ ops color.x).emod 256).toNat
     ((toIntQ ops color.y).emod 256).toNat
     ((toIntQ ops color.z).emod 256).toNat st.2.2)

/-- One row of the render loop: seed from `rowSeed`, then the strided
column fold. -/
def renderRow (ops : RealOps) (scene : Option SceneData)
    (W H step samples : ℕ) (cx cy camO camD : Vec3) (y : ℕ)
    (ap : List Vec3 × List ℕ) : List Vec3 × List ℕ :=
  let res := (stepRange W step).foldl
    (renderPixel ops scene W H step samples cx cy camO camD y)
    (rowSeed y samples, ap.1, ap.2)
  (res.2.1, res.2.2)

/-- The motion-detection head of `updatePathTracingFrame`: when any camera
parameter changed, reset the sample counter, zero the accumulation buffer
and remember the new parameters. -/
def motionReset (cam : CameraParams) (st : FrameState) : FrameState :=
  if st.lastRotX = cam.rotX ∧ st.lastRotY = cam.rotY ∧ st.lastZoom = cam.zoom ∧
      st.lastOffX = cam.offX ∧ st.lastOffY = cam.offY then st
  else
    { st with
        ptSamples := 0
        accum := List.replicate st.accum.length (⟨0, 0, 0⟩ : Vec3)
        lastRotX := cam.rotX
        lastRotY := cam.rotY
        lastZoom := cam.zoom
        lastOffX := cam.offX
        lastOffY := cam.offY }

/-- Embedding of `updatePathTracingFrame`: motion reset, dynamic step,
camera basis, counter increment, strided render loop. -/
def updatePathTracingFrame (ops : RealOps) (scene : Option SceneData)
    (W H : ℕ) (cam : CameraParams) (st : FrameState) : FrameState :=
  match scene with
  | none => st
  | some _ =>
    let st1 := motionReset cam st
    let step := if st1.ptSamples < 4 then 6 else 1
    let radX := cam.rotX * 0.0174533
    let radY := cam.rotY * 0.0174533
    let dist := 4 / (if cam.zoom > 0.1 then cam.zoom else 0.1)
    let camX := ops.sin radY * ops.cos radX * dist - cam.offX
    let camY := -ops.sin radX * dist - cam.offY
    let camZ := ops.cos radY * ops.cos radX * dist
    let origin : Vec3 := ⟨camX, camY, camZ⟩
    let target : Vec3 := ⟨-cam.offX, -cam.offY, 0⟩
    let direction := Vec3.normV ops (target - origin)
    let camRay := mkRay origin direction
    let right := Vec3.normV ops (direction.cross ⟨0, 1, 0⟩)
    let up := Vec3.normV ops (right.cross direction)
    let aspect := (W : ℚ) / (H : ℚ)
    let cx := right * (0.5135 : ℚ) * aspect
    let cy := up * (-0.5135 : ℚ)
    let samples := st1.ptSamples + 1
    let fin := (stepRange H step).foldl
      (fun ap y => renderRow ops scene W H step samples cx cy camRay.o camRay.d y ap)
      (st1.accum, st1.pixels)
    { st1 with ptSamples := samples, accum := fin.1, pixels := fin.2 }


/-- Claim C6: the per-row pseudorandom seed is the stated deterministic
function of the row index and the (post-increment) sample counter only —
`seed = (y·91214 + samples·71932) mod 2^32` — and the frame computation is
a pure function of scene, camera, buffer dimensions and render state: two
invocations on field-wise equal states produce equal, in particular
byte-identical, pixel buffers. -/
theorem frame_seed_deterministic (ops : RealOps) (scene : Option SceneData)
    (W H : ℕ) (cam : CameraParams) (st st' : FrameState)
    (h1 : st.lastRotX = st'.lastRotX) (h2 : st.lastRotY = st'.lastRotY)
    (h3 : st.lastZoom = st'.lastZoom) (h4 : st.lastOffX = st'.lastOffX)
    (h5 : st.lastOffY = st'.lastOffY) (h6 : st.ptSamples = st'.ptSamples)
    (h7 : st.accum = st'.accum) (h8 : st.pixels = st'.pixels) :
    (∀ y samples : ℕ, rowSeed y samples = (y * 91214 + samples * 71932) % 2 ^ 32) ∧
    updatePathTracingFrame ops scene W H cam st
      = updatePathTracingFrame ops scene W H cam st' ∧
    (updatePathTracingFrame ops scene W H cam st).pixels
      = (updatePathTracingFrame ops scene W H cam st').pixels := by
  obtain ⟨a1, a2, a3, a4, a5, a6, a7, a8⟩ := st
  obtain ⟨b1, b2, b3, b4, b5, b6, b7, b8⟩ := st'
  dsimp only at h1 h2 h3 h4 h5 h6 h7 h8
  subst h1 h2 h3 h4 h5 h6 h7 h8
  exact ⟨fun _ _ => rfl, rfl, rfl⟩

/-- Witness for C6 at a concrete camera and render state. -/
theorem frame_seed_deterministic_witness :
    ((⟨0, 0, 1, 0, 0, 1, [⟨7, 7, 7⟩], [0, 0, 0]⟩ : FrameState).lastRotX
       = (⟨0, 0, 1, 0, 0, 1, [⟨7, 7, 7⟩], [0, 0, 0]⟩ : FrameState).lastRotX) ∧
    ((∀ y samples : ℕ, rowSeed y samples
        = (y * 91214 + samples * 71932) % 2 ^ 32) ∧
      updatePathTracingFrame ratOps none 1 1 ⟨0, 0, 1, 0, 0⟩
          ⟨0, 0, 1, 0, 0, 1, [⟨7, 7, 7⟩], [0, 0, 0]⟩
        = updatePathTracingFrame ratOps none 1 1 ⟨0, 0, 1, 0, 0⟩
          ⟨0, 0, 1, 0, 0, 1, [⟨7, 7, 7⟩], [0, 0, 0]⟩ ∧
      (updatePathTracingFrame ratOps none 1 1 ⟨0, 0, 1, 0, 0⟩
          ⟨0, 0, 1, 0, 0, 1, [⟨7, 7, 7⟩], [0, 0, 0]⟩).pixels
        = (updatePathTracingFrame ratOps none 1 1 ⟨0, 0, 1, 0, 0⟩
          ⟨0, 0, 1, 0, 0, 1, [⟨7, 7, 7⟩], [0, 0, 0]⟩).pixels) :=
  ⟨rfl,
   frame_seed_deterministic ratOps none 1 1 ⟨0, 0, 1, 0, 0⟩
     ⟨0, 0, 1, 0, 0, 1, [⟨7, 7, 7⟩], [0, 0, 0]⟩
     ⟨0, 0, 1, 0, 0, 1, [⟨7, 7, 7⟩], [0, 0, 0]⟩
     rfl rfl rfl rfl rfl rfl rfl rfl⟩

/-- C7, amended: on camera change the sample counter is reset and the
accumulation buffer zeroed; on an unchanged camera a sampled pixel
accumulates (`accum[i] += sample`) only in full-resolution frames
(`step = 1`, i.e. once at least 4 samples were taken); in the coarse
preview frames (`step ≠ 1`) the accumulation entry is OVERWRITTEN with
`sample · samples`, which can decrease it; in both cases the displayed
bytes are the tone-mapped `accum[i] / samples`. -/
theorem frame_accumulation (ops : RealOps) (scene : Option SceneData)
    (W H step samples : ℕ) (cx cy camO camD : Vec3) (y x : ℕ)
    (cam : CameraParams) (stf : FrameState)
    (s : ℕ) (accum : List Vec3) (pix : List ℕ)
    (i : ℕ) (hi : i = (H - 1 - y) * W + x)
    (jx jy : ℚ) (js : ℕ)
    (hjit : ((jx, jy), js) = if step = 1 then
        ((if 2 * (random_float s).1 < 1
            then ops.sqrt (2 * (random_float s).1) - 1
            else 1 - ops.sqrt (2 - 2 * (random_float s).1),
          if 2 * (random_float (random_float s).2).1 < 1
            then ops.sqrt (2 * (random_float (random_float s).2).1) - 1
            else 1 - ops.sqrt (2 - 2 * (random_float (random_float s).2).1)),
         (random_float (random_float s).2).2)
      else ((0, 0), s))
    (rc : Vec3 × ℕ)
    (hrc : rc = radiance ops scene (mkRay camO (Vec3.normV ops
      (cx * ((((x : ℚ) + jx) / (W : ℚ) - 0.5) * 2)
        + cy * ((((y : ℚ) + jy) / (H : ℚ) - 0.5) * 2) + camD))) js) :
    (¬ (stf.lastRotX = cam.rotX ∧ stf.lastRotY = cam.rotY ∧
        stf.lastZoom = cam.zoom ∧ stf.lastOffX = cam.offX ∧
        stf.lastOffY = cam.offY) →
      (motionReset cam stf).ptSamples = 0 ∧
      (motionReset cam stf).accum
        = List.replicate stf.accum.length (⟨0, 0, 0⟩ : Vec3)) ∧
    ((stf.lastRotX = cam.rotX ∧ stf.lastRotY = cam.rotY ∧
        stf.lastZoom = cam.zoom ∧ stf.lastOffX = cam.offX ∧
        stf.lastOffY = cam.offY) →
      motionReset cam stf = stf) ∧
    (step = 1 →
      (renderPixel ops scene W H step samples cx cy camO camD y (s, accum, pix) x).2.1
        = accum.set i (accum.getD i ⟨0, 0, 0⟩ + rc.1)) ∧
    (¬ step = 1 →
      (renderPixel ops scene W H step samples cx cy camO camD y (s, accum, pix) x).2.1
        = accum.set i (rc.1 * (samples : ℚ))) ∧
    (renderPixel ops scene W H step samples cx cy camO camD y (s, accum, pix) x).2.2
      = blockFill W H step x y
          ((toIntQ ops ((((renderPixel ops scene W H step samples cx cy camO camD y
              (s, accum, pix) x).2.1.getD i ⟨0, 0, 0⟩) * (1 / (samples : ℚ))).x)).emod
            256).toNat
          ((toIntQ ops ((((renderPixel ops scene W H step samples cx cy camO camD y
              (s, accum, pix) x).2.1.getD i ⟨0, 0, 0⟩) * (1 / (samples : ℚ))).y)).emod
            256).toNat
          ((toIntQ ops ((((renderPixel ops scene W H step samples cx cy camO camD y
              (s, accum, pix) x).2.1.getD i ⟨0, 0, 0⟩) * (1 / (samples : ℚ))).z)).emod
            256).toNat
          pix := by
  refine ⟨?_, ?_, ?_, ?_, ?_⟩
  · intro hm
    rw [motionReset, if_neg hm]
    exact ⟨rfl, rfl⟩
  · intro hm
    rw [motionReset, if_pos hm]
  · intro h1
    show (renderPixel ops scene W H step samples cx cy camO camD y (s, accum, pix) x).2.1
      = accum.set i (accum.getD i ⟨0, 0, 0⟩ + rc.1)
    unfold renderPixel
    dsimp only
    rw [← hi, ← hjit]
    dsimp only
    rw [← hrc, if_pos h1]
  · intro h1
    unfold renderPixel
    dsimp only
    rw [← hi, ← hjit]
    dsimp only
    rw [← hrc, if_neg h1]
  · unfold renderPixel
    dsimp only
    rw [← hi, ← hjit]

/-- The radiance sample of the C7 witness pixel. -/
def c7rc : Vec3 × ℕ :=
  radiance ratOps none (mkRay ⟨0, 0, 4⟩ (Vec3.normV ratOps
    ((⟨1, 0, 0⟩ : Vec3) * (((((0 : ℕ) : ℚ) + (0 : ℚ)) / ((1 : ℕ) : ℚ) - 0.5) * 2)
      + (⟨0, 1, 0⟩ : Vec3) * (((((0 : ℕ) : ℚ) + (0 : ℚ)) / ((1 : ℕ) : ℚ) - 0.5) * 2)
      + ⟨0, 0, -1⟩))) 0

/-- Witness for the amended C7: a changed camera triggers the reset, and a
coarse frame (`step = 6`) takes the overwrite branch. -/
theorem frame_accumulation_witness :
    (¬ ((⟨0, 0, 1, 0, 0, 1, [⟨7, 7, 7⟩], [0, 0, 0]⟩ : FrameState).lastRotX = (5 : ℚ) ∧
        (⟨0, 0, 1, 0, 0, 1, [⟨7, 7, 7⟩], [0, 0, 0]⟩ : FrameState).lastRotY = (0 : ℚ) ∧
        (⟨0, 0, 1, 0, 0, 1, [⟨7, 7, 7⟩], [0, 0, 0]⟩ : FrameState).lastZoom = (1 : ℚ) ∧
        (⟨0, 0, 1, 0, 0, 1, [⟨7, 7, 7⟩], [0, 0, 0]⟩ : FrameState).lastOffX = (0 : ℚ) ∧
        (⟨0, 0, 1, 0, 0, 1, [⟨7, 7, 7⟩], [0, 0, 0]⟩ : FrameState).lastOffY = (0 : ℚ)) ∧
     (motionReset ⟨5, 0, 1, 0, 0⟩ ⟨0, 0, 1, 0, 0, 1, [⟨7, 7, 7⟩], [0, 0, 0]⟩).ptSamples = 0 ∧
     (motionReset ⟨5, 0, 1, 0, 0⟩ ⟨0, 0, 1, 0, 0, 1, [⟨7, 7, 7⟩], [0, 0, 0]⟩).accum
       = List.replicate (⟨0, 0, 1, 0, 0, 1, [⟨7, 7, 7⟩], [0, 0, 0]⟩
           : FrameState).accum.length (⟨0, 0, 0⟩ : Vec3)) ∧
    (¬ (6 : ℕ) = 1 ∧
     (renderPixel ratOps none 1 1 6 2 ⟨1, 0, 0⟩ ⟨0, 1, 0⟩ ⟨0, 0, 4⟩ ⟨0, 0, -1⟩ 0
         (0, [⟨7, 7, 7⟩], [0, 0, 0]) 0).2.1
       = [(⟨7, 7, 7⟩ : Vec3)].set 0 (c7rc.1 * ((2 : ℕ) : ℚ))) := by
  constructor
  · have h := frame_accumulation ratOps none 1 1 6 2 ⟨1, 0, 0⟩ ⟨0, 1, 0⟩ ⟨0, 0, 4⟩
      ⟨0, 0, -1⟩ 0 0 ⟨5, 0, 1, 0, 0⟩ ⟨0, 0, 1, 0, 0, 1, [⟨7, 7, 7⟩], [0, 0, 0]⟩ 0
      [⟨7, 7, 7⟩] [0, 0, 0] 0 rfl 0 0 0 (by decide) c7rc rfl
    exact ⟨by decide, h.1 (by decide)⟩
  · have h := frame_accumulation ratOps none 1 1 6 2 ⟨1, 0, 0⟩ ⟨0, 1, 0⟩ ⟨0, 0, 4⟩
      ⟨0, 0, -1⟩ 0 0 ⟨5, 0, 1, 0, 0⟩ ⟨0, 0, 1, 0, 0, 1, [⟨7, 7, 7⟩], [0, 0, 0]⟩ 0
      [⟨7, 7, 7⟩] [0, 0, 0] 0 rfl 0 0 0 (by decide) c7rc rfl
    exact ⟨by decide, h.2.2.2.1 (by decide)⟩

/-- Any `RealOps` instance falsifies the accumulation claim; the identity
standing in for `sqrt` and `pow` keeps kernel evaluation small. -/
def idOps : RealOps := ⟨fun q => q, ratCos, ratSin, fun q => q⟩

/-- One distant triangle (never hit by the witness rays). -/
def sc7 : SceneData :=
  buildBVH
    { vertices := [⟨1000, 0, 0⟩, ⟨1000, 1, 0⟩, ⟨1000, 0, 1⟩],
      faces := [[0, 1, 2]], triIndices := [], textures := [],
      faceTextureID := [], faceUVs := [], bvhRoot := none }

/-- Camera and state for the C7 counterexample: camera unchanged. -/
def cam7 : CameraParams := ⟨0, 0, 1, 0, 0⟩

def st7 : FrameState := ⟨0, 0, 1, 0, 0, 1, [⟨7, 7, 7⟩], [0, 0, 0]⟩

/-- Counterexample to claim C7 as stated: the camera is unchanged from the
previous frame and the frame's radiance sample is non-negative, yet the
accumulation value strictly DECREASES (from 7 to 0.1): a coarse preview
frame (`samples < 4`, `step = 6`) overwrites `accum[i]` with
`sample · samples` instead of adding the sample. -/
theorem frame_accum_overwrite_cex :
    (st7.lastRotX = cam7.rotX ∧ st7.lastRotY = cam7.rotY ∧
     st7.lastZoom = cam7.zoom ∧ st7.lastOffX = cam7.offX ∧
     st7.lastOffY = cam7.offY) ∧
    0 ≤ ((updatePathTracingFrame idOps (some sc7) 1 1 cam7 st7).accum.getD 0
      ⟨0, 0, 0⟩).x ∧
    ((updatePathTracingFrame idOps (some sc7) 1 1 cam7 st7).accum.getD 0
      ⟨0, 0, 0⟩).x < ((st7.accum.getD 0 ⟨0, 0, 0⟩)).x :=
  ⟨by decide, by decide, by decide⟩

end PT
